import Mathlib

/-!
# QWormhole native server engine — verification development

Shallow embedding of the server-side connection engine of
`src/c/qwormhole_lws.cpp` (repository gsknnft/QWormhole).

Modelling conventions:

* Bytes are `Nat` values; `std::vector<uint8_t>` and `std::string` payloads
  become `List Nat` (byte lists).  `std::string` comparison (used by the
  `std::map` key order) is memcmp order, i.e. lexicographic on unsigned
  bytes, modelled by `bytesLt`.
* C++ `double` is kept abstract: the engine never branches on a number's
  value except through library calls (std::stod, ostream formatting,
  entropy computation).  Those primitives, together with the OpenSSL
  primitives (EVP_DecodeBlock, SHA256, ed25519 verification), are supplied
  through the `Oracles` type class, and all theorems are proved for every
  possible instantiation.
* Fallible code returns `Except String` / `Option`.
* Recursive scans that C++ writes as `while` loops over a cursor are
  written as structural recursions; where the recursion is on a cursor
  rather than on the list a fuel argument bounds the iteration count, with
  the fuel chosen so that it can never be exhausted (each iteration
  consumes at least one byte / at least four buffer bytes).
-/

/-- Abstract primitives: C++ `double` arithmetic/formatting and the OpenSSL
crypto calls used by the handshake verifier.  `N` plays the role of
`double`.  Everything proved below holds for every instantiation. -/
class Oracles (N : Type) where
  /-- `std::stod` applied to a lexed JSON numeral (may throw: `none`). -/
  stod : List Nat → Option N
  /-- `FormatNumber` (ostream `setprecision(15)` plus trailing-zero strip). -/
  fmtNumber : N → List Nat
  /-- OpenSSL `EVP_DecodeBlock`: `none` models a negative return. -/
  evpDecodeBlock : List Nat → Option (List Nat)
  /-- SHA-256 digest (32 bytes). -/
  sha256 : List Nat → List Nat
  /-- OpenSSL ed25519 verification: public key, signature, message. -/
  ed25519Verify : List Nat → List Nat → List Nat → Bool
  /-- `ComputeNIndex` (double arithmetic over the public-key bytes). -/
  computeNIndex : List Nat → N
  /-- `static_cast<uint8_t>(std::floor(clamp(nindex,0,1) * 255.0))`. -/
  nIndexMask : N → Nat
  /-- `ostringstream << std::fixed << std::setprecision(6) << nindex`. -/
  nIndexString : N → List Nat

/-- ASCII string literal as a byte list (all constants used are ASCII). -/
def ascii (s : String) : List Nat := s.data.map Char.toNat

/-- memcmp/std::string `operator<`: lexicographic on unsigned bytes, a
proper prefix is smaller. -/
def bytesLt : List Nat → List Nat → Bool
  | [], [] => false
  | [], _ :: _ => true
  | _ :: _, [] => false
  | a :: as, b :: bs => if a < b then true else if b < a then false else bytesLt as bs

/-- JSON tree produced by `SimpleJsonParser` (`JsonValue` in the source).
`object_value` is a `std::map` ordered by `bytesLt`; it is represented as
the sorted association list the map iterates as. -/
inductive JsonValue (N : Type) where
  | null
  | bool (b : Bool)
  | num (n : N)
  | str (s : List Nat)
  | obj (members : List (List Nat × JsonValue N))
  | arr (elems : List (JsonValue N))

/-- `std::map::emplace`: sorted insert that keeps the existing entry when
the key is already present. -/
def mapEmplace {α : Type} : List (List Nat × α) → List Nat → α → List (List Nat × α)
  | [], k, v => [(k, v)]
  | (k0, v0) :: rest, k, v =>
    if bytesLt k k0 then (k, v) :: (k0, v0) :: rest
    else if bytesLt k0 k then (k0, v0) :: mapEmplace rest k v
    else (k0, v0) :: rest

/-- `std::map::find` on the association list. -/
def lookupMember {α : Type} : List (List Nat × α) → List Nat → Option α
  | [], _ => none
  | (k, v) :: rest, key => if k = key then some v else lookupMember rest key

/-- `GetObjectMember`. -/
def GetObjectMember {N : Type} (v : JsonValue N) (key : List Nat) :
    Option (JsonValue N) :=
  match v with
  | .obj ms => lookupMember ms key
  | _ => none

/-- `GetStringMember`. -/
def GetStringMember {N : Type} (v : JsonValue N) (key : List Nat) :
    Option (List Nat) :=
  match GetObjectMember v key with
  | some (.str s) => some s
  | _ => none

/-- `GetNumberMember`: a number member directly, a string member through
`std::stod`. -/
def GetNumberMember {N : Type} [Oracles N] (v : JsonValue N)
    (key : List Nat) : Option N :=
  match GetObjectMember v key with
  | some (.num n) => some n
  | some (.str s) => Oracles.stod s
  | _ => none

/-! ## SimpleJsonParser (byte level) -/

/-- `SkipWhitespace`: ' ', '\n', '\r', '\t'. -/
def skipWs : List Nat → List Nat
  | [] => []
  | c :: r => if c = 32 ∨ c = 10 ∨ c = 13 ∨ c = 9 then skipWs r else c :: r

/-- Longest prefix of ASCII digits. -/
def spanDigits : List Nat → List Nat × List Nat
  | [] => ([], [])
  | c :: r =>
    if 48 ≤ c ∧ c ≤ 57 then
      let p := spanDigits r
      (c :: p.1, p.2)
    else ([], c :: r)

/-- One hex digit, mirroring `ParseUnicodeEscape`'s three ranges. -/
def hexVal (c : Nat) : Option Nat :=
  if 48 ≤ c ∧ c ≤ 57 then some (c - 48)
  else if 97 ≤ c ∧ c ≤ 102 then some (10 + c - 97)
  else if 65 ≤ c ∧ c ≤ 70 then some (10 + c - 65)
  else none

/-- `AppendUtf8`. -/
def appendUtf8 (cp : Nat) : List Nat :=
  if cp ≤ 0x7F then [cp]
  else if cp ≤ 0x7FF then
    [0xC0 ||| ((cp >>> 6) &&& 0x1F), 0x80 ||| (cp &&& 0x3F)]
  else if cp ≤ 0xFFFF then
    [0xE0 ||| ((cp >>> 12) &&& 0x0F), 0x80 ||| ((cp >>> 6) &&& 0x3F),
     0x80 ||| (cp &&& 0x3F)]
  else
    [0xF0 ||| ((cp >>> 18) &&& 0x07), 0x80 ||| ((cp >>> 12) &&& 0x3F),
     0x80 ||| ((cp >>> 6) &&& 0x3F), 0x80 ||| (cp &&& 0x3F)]

/-- Body of `ParseString` after the opening quote: returns the decoded
bytes and the input after the closing quote. -/
def parseStringBody : List Nat → Except String (List Nat × List Nat)
  | [] => .error "Unterminated string"
  | 34 :: r => .ok ([], r)
  | 92 :: r =>
    (match r with
     | [] => .error "Invalid escape sequence"
     | esc :: r2 =>
       let simple : Option Nat :=
         if esc = 34 then some 34
         else if esc = 92 then some 92
         else if esc = 47 then some 47
         else if esc = 98 then some 8
         else if esc = 102 then some 12
         else if esc = 110 then some 10
         else if esc = 114 then some 13
         else if esc = 116 then some 9
         else none
       match simple with
       | some b =>
         match parseStringBody r2 with
         | .ok p => .ok (b :: p.1, p.2)
         | .error e => .error e
       | none =>
         if esc = 117 then
           match r2 with
           | h1 :: h2 :: h3 :: h4 :: r3 =>
             match hexVal h1, hexVal h2, hexVal h3, hexVal h4 with
             | some v1, some v2, some v3, some v4 =>
               let cp := ((v1 * 16 + v2) * 16 + v3) * 16 + v4
               match parseStringBody r3 with
               | .ok p => .ok (appendUtf8 cp ++ p.1, p.2)
               | .error e => .error e
             | _, _, _, _ => .error "Invalid unicode escape"
           | _ => .error "Invalid unicode escape"
         else .error "Unknown escape sequence")
  | c :: r =>
    match parseStringBody r with
    | .ok p => .ok (c :: p.1, p.2)
    | .error e => .error e

/-- `ParseString`. -/
def parseString (s : List Nat) : Except String (List Nat × List Nat) :=
  match s with
  | 34 :: r => parseStringBody r
  | _ => .error "Expected string"

/-- Consume an expected literal; `MatchLiteral`. -/
def dropLit : List Nat → List Nat → Option (List Nat)
  | [], r => some r
  | l :: ls, r =>
    match r with
    | c :: rs => if c = l then dropLit ls rs else none
    | [] => none

/-- `ParseLiteral`. -/
def parseLiteral {N : Type} (s : List Nat) :
    Except String (JsonValue N × List Nat) :=
  match dropLit (ascii "true") s with
  | some r => .ok (.bool true, r)
  | none =>
    match dropLit (ascii "false") s with
    | some r => .ok (.bool false, r)
    | none =>
      match dropLit (ascii "null") s with
      | some r => .ok (.null, r)
      | none => .error "Invalid literal"

/-- `ParseNumber`: lex per the grammar of the source, then hand the lexeme
to `std::stod` (oracle); a throwing `stod` yields "Invalid number". -/
def parseNumber {N : Type} [Oracles N] (s : List Nat) :
    Except String (JsonValue N × List Nat) :=
  let sign : List Nat × List Nat :=
    match s with
    | 45 :: r => ([45], r)
    | _ => ([], s)
  match sign.2 with
  | [] => .error "Unexpected end in number"
  | c :: r2 =>
    let ipart : Option (List Nat × List Nat) :=
      if c = 48 then some ([48], r2)
      else if 48 ≤ c ∧ c ≤ 57 then some (spanDigits (c :: r2))
      else none
    match ipart with
    | none => .error "Invalid number"
    | some (ip, r3) =>
      let fpart : Except String (List Nat × List Nat) :=
        match r3 with
        | 46 :: r4 =>
          match r4 with
          | d :: _ =>
            if 48 ≤ d ∧ d ≤ 57 then
              let p := spanDigits r4
              .ok (46 :: p.1, p.2)
            else .error "Invalid fractional part"
          | [] => .error "Invalid fractional part"
        | _ => .ok ([], r3)
      match fpart with
      | .error e => .error e
      | .ok (fp, r5) =>
        let epart : Except String (List Nat × List Nat) :=
          match r5 with
          | e :: r6 =>
            if e = 101 ∨ e = 69 then
              let sgn : List Nat × List Nat :=
                match r6 with
                | 43 :: r7 => ([43], r7)
                | 45 :: r7 => ([45], r7)
                | _ => ([], r6)
              match sgn.2 with
              | d :: _ =>
                if 48 ≤ d ∧ d ≤ 57 then
                  let p := spanDigits sgn.2
                  .ok (e :: sgn.1 ++ p.1, p.2)
                else .error "Invalid exponent"
              | [] => .error "Invalid exponent"
            else .ok ([], r5)
          | [] => .ok ([], r5)
        match epart with
        | .error e => .error e
        | .ok (ep, r8) =>
          match (Oracles.stod (sign.1 ++ ip ++ fp ++ ep) : Option N) with
          | none => .error "Invalid number"
          | some n => .ok (.num n, r8)

/-- Object-member loop of `ParseObject`.  `pv` is the value parser for the
current nesting depth; `lf` bounds the number of iterations (each
iteration consumes the key's two quote bytes at least, so
`remaining length + 1` can never be exhausted). -/
def parseMembersLoop {N : Type}
    (pv : List Nat → Except String (JsonValue N × List Nat)) :
    Nat → List (List Nat × JsonValue N) → List Nat →
    Except String (JsonValue N × List Nat)
  | 0, _, _ => .error "Expected ',' between object entries"
  | lf + 1, acc, s =>
    match parseString s with
    | .error e => .error e
    | .ok (key, r1) =>
      match skipWs r1 with
      | 58 :: r2 =>
        match pv (skipWs r2) with
        | .error e => .error e
        | .ok (v, r3) =>
          let acc' := mapEmplace acc key v
          match skipWs r3 with
          | 125 :: r4 => .ok (.obj acc', r4)
          | 44 :: r4 => parseMembersLoop pv lf acc' (skipWs r4)
          | _ => .error "Expected ',' between object entries"
      | _ => .error "Expected ':' after object key"

/-- Element loop of `ParseArray`. -/
def parseElemsLoop {N : Type}
    (pv : List Nat → Except String (JsonValue N × List Nat)) :
    Nat → List (JsonValue N) → List Nat →
    Except String (JsonValue N × List Nat)
  | 0, _, _ => .error "Expected ',' between array entries"
  | lf + 1, acc, s =>
    match pv s with
    | .error e => .error e
    | .ok (v, r1) =>
      let acc' := acc ++ [v]
      match skipWs r1 with
      | 93 :: r2 => .ok (.arr acc', r2)
      | 44 :: r2 => parseElemsLoop pv lf acc' (skipWs r2)
      | _ => .error "Expected ',' between array entries"

/-- `ParseObject` body (after dispatch saw '{'). -/
def parseObjectBody {N : Type}
    (pv : List Nat → Except String (JsonValue N × List Nat))
    (s : List Nat) : Except String (JsonValue N × List Nat) :=
  match s with
  | 123 :: r =>
    match skipWs r with
    | 125 :: r1 => .ok (.obj [], r1)
    | r1 => parseMembersLoop pv (r1.length + 1) [] r1
  | _ => .error "Expected '\x7b'"

/-- `ParseArray` body (after dispatch saw '['). -/
def parseArrayBody {N : Type}
    (pv : List Nat → Except String (JsonValue N × List Nat))
    (s : List Nat) : Except String (JsonValue N × List Nat) :=
  match s with
  | 91 :: r =>
    match skipWs r with
    | 93 :: r1 => .ok (.arr [], r1)
    | r1 => parseElemsLoop pv (r1.length + 1) [] r1
  | _ => .error "Expected '['"

/-- `ParseValue`.  The fuel bounds only the object/array nesting depth;
each nesting level consumes at least one input byte, so the initial fuel
`input length + 1` can only run out on an already-empty input, where the
source reports the same "Unexpected end of JSON input". -/
def parseValue {N : Type} [Oracles N] :
    Nat → List Nat → Except String (JsonValue N × List Nat)
  | 0, _ => .error "Unexpected end of JSON input"
  | fuel + 1, s =>
    match s with
    | [] => .error "Unexpected end of JSON input"
    | c :: _ =>
      if c = 123 then parseObjectBody (parseValue fuel) s
      else if c = 91 then parseArrayBody (parseValue fuel) s
      else if c = 34 then
        match parseString s with
        | .ok p => .ok (.str p.1, p.2)
        | .error e => .error e
      else if c = 45 ∨ (48 ≤ c ∧ c ≤ 57) then parseNumber s
      else parseLiteral s

/-- `SimpleJsonParser::Parse`: whole input, trailing data rejected. -/
def ParseJson {N : Type} [Oracles N] (s : List Nat) :
    Except String (JsonValue N) :=
  match parseValue (s.length + 1) (skipWs s) with
  | .error e => .error e
  | .ok (v, rest) =>
    match skipWs rest with
    | [] => .ok v
    | _ => .error "Trailing data in JSON payload"

/-! ## Canonical serializer -/

/-- `EscapeString` (byte level; control bytes become uppercase `\u00XX`). -/
def EscapeString : List Nat → List Nat
  | [] => []
  | c :: r =>
    (if c = 34 then [92, 34]
     else if c = 92 then [92, 92]
     else if c = 8 then [92, 98]
     else if c = 12 then [92, 102]
     else if c = 10 then [92, 110]
     else if c = 13 then [92, 114]
     else if c = 9 then [92, 116]
     else if c < 0x20 then
       let hi := c >>> 4
       let lo := c &&& 0xF
       [92, 117, 48, 48, if hi < 10 then 48 + hi else 65 + (hi - 10),
        if lo < 10 then 48 + lo else 65 + (lo - 10)]
     else [c]) ++ EscapeString r

mutual
/-- `SerializeJson`: canonical serialization.  `skipSig` mirrors
`skip_signature_root`, `isRoot` mirrors `is_root`; the `signature` member
is dropped only when both hold.  Numbers go through the `FormatNumber`
oracle. -/
def SerializeJson {N : Type} [Oracles N] (skipSig isRoot : Bool) :
    JsonValue N → List Nat
  | .null => ascii "null"
  | .bool b => if b then ascii "true" else ascii "false"
  | .num n => Oracles.fmtNumber n
  | .str s => 34 :: (EscapeString s ++ [34])
  | .arr elems => 91 :: (serializeElems skipSig true elems ++ [93])
  | .obj ms => 123 :: (serializeMembers skipSig isRoot true ms ++ [125])

/-- Array-element loop of `SerializeArray` (`first` tracks the comma flag). -/
def serializeElems {N : Type} [Oracles N] (skipSig : Bool) :
    Bool → List (JsonValue N) → List Nat
  | _, [] => []
  | first, v :: rest =>
    (if first then [] else [44]) ++ SerializeJson skipSig false v ++
      serializeElems skipSig false rest

/-- Object-member loop of `SerializeJson`'s object case. -/
def serializeMembers {N : Type} [Oracles N] (skipSig isRoot : Bool) :
    Bool → List (List Nat × JsonValue N) → List Nat
  | first, [] => (fun _ => []) first
  | first, (k, v) :: rest =>
    if skipSig ∧ isRoot ∧ k = ascii "signature" then
      serializeMembers skipSig isRoot first rest
    else
      (if first then [] else [44]) ++ (34 :: (EscapeString k ++ [34, 58])) ++
        SerializeJson skipSig false v ++ serializeMembers skipSig isRoot false rest
end

/-! ## Handshake verifier -/

/-- `HexEncode` (lowercase). -/
def HexEncode : List Nat → List Nat
  | [] => []
  | b :: r =>
    (let d1 := (b >>> 4) &&& 0xF
     let d2 := b &&& 0xF
     [if d1 < 10 then 48 + d1 else 97 + (d1 - 10),
      if d2 < 10 then 48 + d2 else 97 + (d2 - 10)]) ++ HexEncode r

/-- `Base64Decode`: empty input decodes to empty; otherwise
`EVP_DecodeBlock` (oracle) then the explicit `=`-padding trim of the
source. -/
def Base64Decode {N : Type} [Oracles N] (input : List Nat) :
    Option (List Nat) :=
  if input.isEmpty then some []
  else
    match (Oracles.evpDecodeBlock (N := N) input : Option (List Nat)) with
    | none => none
    | some out =>
      let padding :=
        (if input.getLast? = some 61 then 1 else 0) +
        (if 1 < input.length ∧ input.getD (input.length - 2) 0 = 61 then 1 else 0)
      if out.length < padding then none
      else some (out.take (out.length - padding))

/-- `DeriveNegentropicHash`: SHA-256 over
`public_key ∥ salted ∥ nIndex_string`, hex-encoded.  The mask byte and the
fixed-6-digit index string come from the double-arithmetic oracles; the
xor salting and the concatenation are concrete. -/
def DeriveNegentropicHash {N : Type} [Oracles N] (pk : List Nat)
    (nindex : N) : List Nat :=
  let mask := Oracles.nIndexMask (N := N) nindex
  let salted := pk.map (fun b => (Nat.xor b mask) % 256)
  HexEncode (Oracles.sha256 (N := N) (pk ++ salted ++ Oracles.nIndexString nindex))

/-- `LooksNegantropicHandshake`: all four members present (any type). -/
def LooksNegantropicHandshake {N : Type} (root : JsonValue N) : Bool :=
  (GetObjectMember root (ascii "publicKey")).isSome &&
  (GetObjectMember root (ascii "signature")).isSome &&
  (GetObjectMember root (ascii "negHash")).isSome &&
  (GetObjectMember root (ascii "nIndex")).isSome

/-- Handshake metadata (`HandshakeMetadata` in the source; each
`has_x` flag plus value pair is modelled as an `Option`). -/
structure HandshakeMetadata (N : Type) where
  version? : Option (List Nat) := none
  tags : List (List Nat × (List Nat ⊕ N)) := []
  nIndex? : Option N := none
  negHash? : Option (List Nat) := none

/-- `BuildHandshakeMetadata`. -/
def BuildHandshakeMetadata {N : Type} [Oracles N] (root : JsonValue N) :
    HandshakeMetadata N :=
  { version? := GetStringMember root (ascii "version")
    nIndex? := GetNumberMember root (ascii "nIndex")
    negHash? := GetStringMember root (ascii "negHash")
    tags :=
      match GetObjectMember root (ascii "tags") with
      | some (.obj ms) =>
        ms.foldl (fun acc kv =>
          match kv.2 with
          | .str s => mapEmplace acc kv.1 (Sum.inl s)
          | .num n => mapEmplace acc kv.1 (Sum.inr n)
          | _ => acc) []
      | _ => [] }

/-- `VerifyNegantropicHandshake`: string members, base64 decode, nIndex
and negHash recomputation, hash comparison, ed25519 over the canonical
serialization with the top-level `signature` member omitted.  On success
the metadata's nIndex/negHash are overwritten with the recomputed values. -/
def VerifyNegantropicHandshake {N : Type} [Oracles N]
    (root : JsonValue N) (meta : HandshakeMetadata N) :
    Except String (HandshakeMetadata N) :=
  match GetStringMember root (ascii "publicKey"),
        GetStringMember root (ascii "signature"),
        GetStringMember root (ascii "negHash") with
  | some pkB64, some sigB64, some negHash =>
    match Base64Decode (N := N) pkB64, Base64Decode (N := N) sigB64 with
    | some pk, some sig =>
      let nindex := Oracles.computeNIndex (N := N) pk
      let derived := DeriveNegentropicHash pk nindex
      if derived = negHash then
        if Oracles.ed25519Verify (N := N) pk sig (SerializeJson true true root) then
          .ok { meta with nIndex? := some nindex, negHash? := some derived }
        else .error "Invalid handshake signature"
      else .error "Negantropic hash mismatch"
    | _, _ => .error "Invalid base64 in handshake"
  | _, _, _ => .error "Missing negantropic handshake fields"

/-! ## Server options and the per-connection engine -/

/-- The framing/handshake-relevant server options (`ServerOptions` in the
source; host/port/TLS material does not influence the connection engine
modelled here).  Defaults as in the source after option parsing
(`maxFrameLength = 0` is replaced by the default there). -/
structure ServerOptions where
  length_prefixed : Bool := true
  max_frame_length : Nat := 4 * 1024 * 1024
  max_backpressure_bytes : Nat := 5 * 1024 * 1024
  protocol_version : List Nat := []

/-- `HandleHandshakeFrame`: parse the frame as JSON, require
`type == "handshake"`, optionally check the protocol version, build the
metadata, and run the attested verification when the four negantropic
members are present.  The `String` on the error side is exactly the
message of the `error` event the source emits. -/
def HandleHandshakeFrame {N : Type} [Oracles N] (opts : ServerOptions)
    (frame : List Nat) : Except String (HandshakeMetadata N) :=
  match ParseJson (N := N) frame with
  | .error e => .error ("Failed to parse handshake: " ++ e)
  | .ok root =>
    match GetStringMember root (ascii "type") with
    | none => .error "Invalid handshake payload: missing type"
    | some t =>
      if t ≠ ascii "handshake" then .error "Invalid handshake payload: missing type"
      else if (decide (opts.protocol_version ≠ []) &&
          (match GetStringMember root (ascii "version") with
           | some v => decide (v ≠ []) && decide (v ≠ opts.protocol_version)
           | none => false)) = true then .error "Protocol version mismatch"
      else
        let meta := BuildHandshakeMetadata root
        if LooksNegantropicHandshake root then
          match VerifyNegantropicHandshake root meta with
          | .error e => .error ("Invalid handshake signature: " ++ e)
          | .ok meta' => .ok meta'
        else .ok meta

/-! ## Per-connection engine state and event trace

The engine keys all claim-relevant state per connection; the model follows
one connection through its lifecycle.  Events are the host-observable
emissions for that connection (`EmitConnection`, `EmitMessage`,
`EmitError`, `EmitBackpressure`, `EmitDrain`, `EmitClientClosed`); their
payloads are reduced to the fields the claims mention. -/

/-- Host-observable events for one connection. -/
inductive Event where
  | connection
  | message (data : List Nat)
  | error (msg : String)
  | backpressure (queuedBytes threshold : Nat)
  | drain
  | clientClosed (hadError : Bool)
deriving DecidableEq, Repr

/-- `ClientConnection`: the engine-mutated per-connection state (id, wsi
and the resolved peer address do not influence the modelled behavior). -/
structure Conn (N : Type) where
  send_queue : List (List Nat)
  queued_bytes : Nat
  backpressured : Bool
  closing : Bool
  rx_buffer : List Nat
  rx_offset : Nat
  handshake_required : Bool
  handshake_complete : Bool
  connection_announced : Bool
  handshake_metadata : HandshakeMetadata N

/-- `TrimRxBuffer`. -/
def TrimRxBuffer {N : Type} (c : Conn N) : Conn N :=
  if c.rx_offset = 0 then c
  else if c.rx_buffer.length ≤ c.rx_offset then
    { c with rx_buffer := [], rx_offset := 0 }
  else if c.rx_buffer.length / 2 < c.rx_offset then
    { c with rx_buffer := c.rx_buffer.drop c.rx_offset, rx_offset := 0 }
  else c

/-- The 4-byte big-endian read of `ProcessBufferedFrames`.  The source ORs
`uint8_t` values shifted into disjoint bit ranges, which equals the
addition below for byte values. -/
def readBe32 (buf : List Nat) (off : Nat) : Nat :=
  buf.getD off 0 * 2 ^ 24 + buf.getD (off + 1) 0 * 2 ^ 16 +
    buf.getD (off + 2) 0 * 2 ^ 8 + buf.getD (off + 3) 0

/-- The 4-byte big-endian header of `BuildFramedPayload`
(`len = static_cast<uint32_t>(data.size())`, then shift/mask; `>> k` and
`& 0xff` on unsigned values are `/ 2^k` and `% 256`). -/
def encodeBe32 (n : Nat) : List Nat :=
  [n / 2 ^ 24 % 256, n / 2 ^ 16 % 256, n / 2 ^ 8 % 256, n % 256]

/-- `BuildFramedPayload`. -/
def BuildFramedPayload (opts : ServerOptions) (data : List Nat) : List Nat :=
  if opts.length_prefixed then encodeBe32 data.length ++ data else data

/-- The frame-reassembly loop of `ProcessBufferedFrames`.  Each iteration
consumes `4 + frame_length ≥ 4` bytes of `rx_buffer.length - rx_offset`
(`TrimRxBuffer` preserves that difference), so fuel
`rx_buffer.length + 1` — used by the wrapper below — can never run out.
Returns the new connection state, the events emitted in order, and the
boolean result of the source function (`false` requests socket close). -/
def pbfGo {N : Type} [Oracles N] (opts : ServerOptions) :
    Nat → Conn N → Conn N × List Event × Bool
  | 0, c => (c, [], true)
  | fuel + 1, c =>
    if c.rx_offset + 4 ≤ c.rx_buffer.length then
      let flen := readBe32 c.rx_buffer c.rx_offset
      if opts.max_frame_length < flen then
        (c, [.error "Frame length exceeded native limit"], false)
      else if c.rx_buffer.length < c.rx_offset + 4 + flen then
        (c, [], true)
      else
        let frame := (c.rx_buffer.drop (c.rx_offset + 4)).take flen
        let c1 := TrimRxBuffer { c with rx_offset := c.rx_offset + 4 + flen }
        if c1.handshake_required ∧ ¬ c1.handshake_complete then
          match HandleHandshakeFrame (N := N) opts frame with
          | .error e => (c1, [.error e], false)
          | .ok meta =>
            let c2 := { c1 with handshake_metadata := meta, handshake_complete := true }
            if c2.connection_announced then pbfGo opts fuel c2
            else
              let r := pbfGo opts fuel { c2 with connection_announced := true }
              (r.1, .connection :: r.2.1, r.2.2)
        else
          let r := pbfGo opts fuel c1
          (r.1, .message frame :: r.2.1, r.2.2)
    else (c, [], true)

/-- `ProcessBufferedFrames`. -/
def ProcessBufferedFrames {N : Type} [Oracles N] (opts : ServerOptions)
    (c : Conn N) : Conn N × List Event × Bool :=
  pbfGo opts (c.rx_buffer.length + 1) c

/-- `ProcessIncomingData` (the null/empty guards of the source collapse to
the empty-data case here). -/
def ProcessIncomingData {N : Type} [Oracles N] (opts : ServerOptions)
    (c : Conn N) (data : List Nat) : Conn N × List Event × Bool :=
  if data.isEmpty then (c, [], true)
  else ProcessBufferedFrames opts { c with rx_buffer := c.rx_buffer ++ data }

/-- The `LWS_CALLBACK_RAW_WRITEABLE` body for a connection found in the
table.  `wres` is the provider's `lws_write` return value (`ssize_t`).
Returns the new state, the blob handed to `lws_write` (if any), the
events, and whether the callback returns `-1` (socket teardown). -/
def onWritable {N : Type} (c : Conn N) (wres : Int) :
    Conn N × Option (List Nat) × List Event × Bool :=
  if c.closing then (c, none, [], true)
  else
    match c.send_queue with
    | [] => (c, none, [], false)
    | b :: rest =>
      let c1 : Conn N :=
        { c with send_queue := rest, queued_bytes := c.queued_bytes - b.length }
      if wres < 0 then (c1, some b, [], true)
      else if rest.isEmpty then
        if c1.backpressured then
          ({ c1 with backpressured := false }, some b, [.drain], false)
        else (c1, some b, [], false)
      else (c1, some b, [], false)

/-- The `LWS_CALLBACK_RAW_RX` body for a connection found in the table.
Returns new state, events, and whether the callback returns `-1`. -/
def onRx {N : Type} [Oracles N] (opts : ServerOptions) (c : Conn N)
    (data : List Nat) : Conn N × List Event × Bool :=
  if data.isEmpty then (c, [], false)
  else if c.closing then (c, [], true)
  else if ¬ opts.length_prefixed then (c, [.message data], false)
  else
    let r := ProcessIncomingData opts c data
    (r.1, r.2.1, !r.2.2)

/-- The `Broadcast` body for one connection in the table: push the framed
blob, update `queued_bytes`, latch backpressure at the threshold. -/
def onBroadcast {N : Type} (opts : ServerOptions) (c : Conn N)
    (framed : List Nat) : Conn N × List Event :=
  let c1 : Conn N :=
    { c with send_queue := c.send_queue ++ [framed],
             queued_bytes := c.queued_bytes + framed.length }
  if ¬ c.backpressured ∧ opts.max_backpressure_bytes ≤ c1.queued_bytes then
    ({ c1 with backpressured := true },
     [.backpressure c1.queued_bytes opts.max_backpressure_bytes])
  else (c1, [])

/-- `LWS_CALLBACK_RAW_ADOPT`: fresh connection state. -/
def adoptConn {N : Type} (opts : ServerOptions) : Conn N :=
  { send_queue := []
    queued_bytes := 0
    backpressured := false
    closing := false
    rx_buffer := []
    rx_offset := 0
    handshake_required := !opts.protocol_version.isEmpty
    handshake_complete := opts.protocol_version.isEmpty
    connection_announced := opts.protocol_version.isEmpty
    handshake_metadata := {} }

/-- Lifecycle of one connection inside the engine.

* `pre`   — before `RAW_ADOPT`.
* `live`  — in both tables, callbacks dispatch normally.
* `doomed`— a callback returned `-1`: libwebsockets is tearing down the
  socket, so no further `rx`/`writable` upcalls are delivered for it
  (the provider contract), but the connection is still in the tables, so
  API-side `broadcast`/`closeConnection` still reach it, until `RAW_CLOSE`.
* `dead`  — after `RAW_CLOSE` removed it from both tables; every later
  lookup fails and nothing further is emitted for it. -/
inductive SState (N : Type) where
  | pre
  | live (c : Conn N)
  | doomed (c : Conn N)
  | dead

/-- One provider upcall or API request concerning this connection. -/
inductive UpStep where
  | adopt
  | rx (data : List Nat)
  | writable (wres : Int)
  | close
  | broadcast (data : List Nat)
  | closeConnection
deriving DecidableEq, Repr

/-- One engine step for this connection, with the events it emits. -/
def step {N : Type} [Oracles N] (opts : ServerOptions) :
    SState N → UpStep → SState N × List Event
  | .pre, .adopt =>
    (.live (adoptConn opts),
     if opts.protocol_version.isEmpty then [.connection] else [])
  | .pre, _ => (.pre, [])
  | .live c, .adopt => (.live c, [])
  | .live c, .rx data =>
    let r := onRx opts c data
    (if r.2.2 then .doomed r.1 else .live r.1, r.2.1)
  | .live c, .writable wres =>
    let r := onWritable c wres
    (if r.2.2.2 then .doomed r.1 else .live r.1, r.2.2.1)
  | .live _, .close => (.dead, [.clientClosed false])
  | .live c, .broadcast data =>
    let r := onBroadcast opts c (BuildFramedPayload opts data)
    (.live r.1, r.2)
  | .live c, .closeConnection => (.live { c with closing := true }, [])
  | .doomed c, .adopt => (.doomed c, [])
  | .doomed c, .rx _ => (.doomed c, [])
  | .doomed c, .writable _ => (.doomed c, [])
  | .doomed _, .close => (.dead, [.clientClosed false])
  | .doomed c, .broadcast data =>
    let r := onBroadcast opts c (BuildFramedPayload opts data)
    (.doomed r.1, r.2)
  | .doomed c, .closeConnection => (.doomed { c with closing := true }, [])
  | .dead, _ => (.dead, [])

/-- Run a sequence of steps from a given state, collecting events in
emission order. -/
def runFrom {N : Type} [Oracles N] (opts : ServerOptions)
    (s : SState N) : List UpStep → SState N × List Event
  | [] => (s, [])
  | u :: us =>
    let r := step opts s u
    let r2 := runFrom opts r.1 us
    (r2.1, r.2 ++ r2.2)

/-- Run a connection trace from scratch. -/
def run {N : Type} [Oracles N] (opts : ServerOptions)
    (steps : List UpStep) : SState N × List Event :=
  runFrom opts .pre steps

/-! ## Client `Recv` -/

/-- `LwsClientWrapper::Recv`: state is the `recv_queue`; returns the bytes
handed to the caller and the new queue.  An empty queue returns a
zero-length buffer (the function does not wait).  Otherwise the front
chunk is popped whole and truncated to `limit` when `limit > 0`. -/
def clientRecv (q : List (List Nat)) (limit : Nat) :
    List Nat × List (List Nat) :=
  match q with
  | [] => ([], [])
  | d :: rest => (if 0 < limit ∧ limit < d.length then d.take limit else d, rest)

/-- Iterated `Recv` calls: the list of returned buffers. -/
def runRecvs : List (List Nat) → List Nat → List (List Nat)
  | _, [] => []
  | q, l :: ls =>
    let r := clientRecv q l
    r.1 :: runRecvs r.2 ls

/-! ## Trace predicates used by the claims -/

/-- Sum of the blob sizes in a send queue. -/
def sumSizes (q : List (List Nat)) : Nat := (q.map List.length).sum

/-- `queued_bytes` bookkeeping invariant plus the structural facts the
claims rely on: the receive cursor never passes the buffer end, and a
`connection` announcement happens exactly when the handshake is complete. -/
def connInv {N : Type} (c : Conn N) : Prop :=
  c.queued_bytes = sumSizes c.send_queue ∧
  c.rx_offset ≤ c.rx_buffer.length ∧
  c.connection_announced = c.handshake_complete

/-- `connInv` lifted to lifecycle states. -/
def stInv {N : Type} : SState N → Prop
  | .pre => True
  | .live c => connInv c
  | .doomed c => connInv c
  | .dead => True

def Event.isConn : Event → Bool
  | .connection => true
  | _ => false

def Event.isMsg : Event → Bool
  | .message _ => true
  | _ => false

def Event.isErr : Event → Bool
  | .error _ => true
  | _ => false

def Event.isClosed : Event → Bool
  | .clientClosed _ => true
  | _ => false

/-- Scanning from the front: no `message` event occurs strictly before the
first `connection` event. -/
def noMsgBeforeConn : List Event → Bool
  | [] => true
  | .connection :: _ => true
  | .message _ :: _ => false
  | _ :: rest => noMsgBeforeConn rest

/-- A `clientClosed` event, if present, is the last event of the list. -/
def closedIsLast : List Event → Bool
  | [] => true
  | .clientClosed _ :: rest => rest.isEmpty
  | _ :: rest => closedIsLast rest

/-- States in which the socket is (being) torn down. -/
def notLive {N : Type} : SState N → Bool
  | .doomed _ => true
  | .dead => true
  | _ => false

/-- A connection (in any lifecycle position) that still awaits its
handshake: required, not complete, not announced. -/
def Unann {N : Type} : SState N → Prop
  | .pre => True
  | .live c =>
    c.handshake_required = true ∧ c.handshake_complete = false ∧
      c.connection_announced = false
  | .doomed c =>
    c.handshake_required = true ∧ c.handshake_complete = false ∧
      c.connection_announced = false
  | .dead => True

/-- `queued_bytes` equals the summed queue sizes, at any lifecycle point. -/
def queueAccurate {N : Type} : SState N → Prop
  | .live c => c.queued_bytes = sumSizes c.send_queue
  | .doomed c => c.queued_bytes = sumSizes c.send_queue
  | _ => True

/-- The receive cursor is inside the buffer, at any lifecycle point. -/
def cursorOk {N : Type} : SState N → Prop
  | .live c => c.rx_offset ≤ c.rx_buffer.length
  | .doomed c => c.rx_offset ≤ c.rx_buffer.length
  | _ => True

/-- A concrete instantiation of the abstract primitives, used only to
exercise theorems on concrete inputs. -/
instance unitOracles : Oracles Unit where
  stod _ := some ()
  fmtNumber _ := ascii "0"
  evpDecodeBlock _ := some []
  sha256 _ := []
  ed25519Verify _ _ _ := true
  computeNIndex _ := ()
  nIndexMask _ := 0
  nIndexString _ := ascii "0.000000"

/-- Options with a required handshake (framed, defaults otherwise). -/
def optsHs : ServerOptions := { protocol_version := ascii "v1" }

/-- Options with a required handshake but unframed (`framing: "none"`). -/
def optsRaw : ServerOptions :=
  { length_prefixed := false, protocol_version := ascii "v1" }

/-- Options with a 1-byte backpressure threshold (no handshake). -/
def optsBp : ServerOptions := { max_backpressure_bytes := 1 }

/-- Default options. -/
def optsDefault : ServerOptions := {}

/-- Options with `max_frame_length` = 2^32 (reachable: the option is read
as a 64-bit integer into `size_t` and only 0 is replaced by the default). -/
def optsHuge : ServerOptions := { max_frame_length := 2 ^ 32 }

/-- Options with a tiny `max_frame_length` (3 bytes), for boundary tests. -/
def optsSmall : ServerOptions := { max_frame_length := 3 }

/-- A concrete attested-looking handshake root for exercising the
verifier. -/
def rootAttested : JsonValue Unit :=
  .obj [(ascii "negHash", .str []), (ascii "nIndex", .num ()),
        (ascii "publicKey", .str []), (ascii "signature", .str [])]

/-! ## Lemmas: TrimRxBuffer -/

theorem TrimRxBuffer_send_queue {N : Type} (c : Conn N) :
    (TrimRxBuffer c).send_queue = c.send_queue := by
  unfold TrimRxBuffer; (repeat' split) <;> rfl

theorem TrimRxBuffer_queued_bytes {N : Type} (c : Conn N) :
    (TrimRxBuffer c).queued_bytes = c.queued_bytes := by
  unfold TrimRxBuffer; (repeat' split) <;> rfl

theorem TrimRxBuffer_backpressured {N : Type} (c : Conn N) :
    (TrimRxBuffer c).backpressured = c.backpressured := by
  unfold TrimRxBuffer; (repeat' split) <;> rfl

theorem TrimRxBuffer_closing {N : Type} (c : Conn N) :
    (TrimRxBuffer c).closing = c.closing := by
  unfold TrimRxBuffer; (repeat' split) <;> rfl

theorem TrimRxBuffer_handshake_required {N : Type} (c : Conn N) :
    (TrimRxBuffer c).handshake_required = c.handshake_required := by
  unfold TrimRxBuffer; (repeat' split) <;> rfl

theorem TrimRxBuffer_handshake_complete {N : Type} (c : Conn N) :
    (TrimRxBuffer c).handshake_complete = c.handshake_complete := by
  unfold TrimRxBuffer; (repeat' split) <;> rfl

theorem TrimRxBuffer_connection_announced {N : Type} (c : Conn N) :
    (TrimRxBuffer c).connection_announced = c.connection_announced := by
  unfold TrimRxBuffer; (repeat' split) <;> rfl

/-- The single compaction characterization: the buffer is compacted (to
the unconsumed suffix, cursor reset) exactly when the cursor exceeds half
the buffer length; otherwise the connection is untouched. -/
theorem TrimRxBuffer_eq {N : Type} (c : Conn N) :
    TrimRxBuffer c =
      if c.rx_buffer.length / 2 < c.rx_offset then
        { c with rx_buffer := c.rx_buffer.drop c.rx_offset, rx_offset := 0 }
      else c := by
  unfold TrimRxBuffer
  by_cases h0 : c.rx_offset = 0
  · simp [h0]
  · simp only [h0, if_false]
    by_cases h1 : c.rx_buffer.length ≤ c.rx_offset
    · have hhalf : c.rx_buffer.length / 2 < c.rx_offset := by omega
      simp [h1, hhalf, List.drop_eq_nil_of_le h1]
    · simp [h1]

/-! ## Lemmas: the frame-reassembly loop -/

/-- The reassembly loop never touches the send pipeline or the gate
requirement flag. -/
theorem pbfGo_preserves {N : Type} [Oracles N] (opts : ServerOptions) :
    ∀ (fuel : Nat) (c : Conn N),
      (pbfGo opts fuel c).1.send_queue = c.send_queue ∧
      (pbfGo opts fuel c).1.queued_bytes = c.queued_bytes ∧
      (pbfGo opts fuel c).1.backpressured = c.backpressured ∧
      (pbfGo opts fuel c).1.closing = c.closing ∧
      (pbfGo opts fuel c).1.handshake_required = c.handshake_required := by
  intro fuel
  induction fuel with
  | zero => intro c; exact ⟨rfl, rfl, rfl, rfl, rfl⟩
  | succ n ih =>
    intro c
    simp only [pbfGo]
    repeat' split
    all_goals
      first
      | exact ⟨rfl, rfl, rfl, rfl, rfl⟩
      | (simp [TrimRxBuffer_send_queue, TrimRxBuffer_queued_bytes,
          TrimRxBuffer_backpressured, TrimRxBuffer_closing,
          TrimRxBuffer_handshake_required]
         done)
      | (refine ⟨(ih _).1.trans ?_, (ih _).2.1.trans ?_, (ih _).2.2.1.trans ?_,
          (ih _).2.2.2.1.trans ?_, (ih _).2.2.2.2.trans ?_⟩ <;>
          simp [TrimRxBuffer_send_queue, TrimRxBuffer_queued_bytes,
            TrimRxBuffer_backpressured, TrimRxBuffer_closing,
            TrimRxBuffer_handshake_required])

/-- Compaction keeps the cursor inside the buffer. -/
theorem TrimRxBuffer_offset_le {N : Type} (c : Conn N)
    (h : c.rx_offset ≤ c.rx_buffer.length) :
    (TrimRxBuffer c).rx_offset ≤ (TrimRxBuffer c).rx_buffer.length := by
  rw [TrimRxBuffer_eq]
  split
  · simp
  · exact h

/-- The reassembly loop keeps the cursor inside the buffer at every exit. -/
theorem pbfGo_offset_le {N : Type} [Oracles N] (opts : ServerOptions) :
    ∀ (fuel : Nat) (c : Conn N), c.rx_offset ≤ c.rx_buffer.length →
      (pbfGo opts fuel c).1.rx_offset ≤ (pbfGo opts fuel c).1.rx_buffer.length := by
  intro fuel
  induction fuel with
  | zero => intro c h; exact h
  | succ n ih =>
    intro c h
    simp only [pbfGo]
    repeat' split
    all_goals
      first
      | exact h
      | exact TrimRxBuffer_offset_le _ (by simp; omega)
      | (apply ih; exact TrimRxBuffer_offset_le _ (by simp; omega))

/-- The reassembly loop preserves "a `connection` event has been announced
iff the handshake is complete". -/
theorem pbfGo_gate_eq {N : Type} [Oracles N] (opts : ServerOptions) :
    ∀ (fuel : Nat) (c : Conn N),
      c.connection_announced = c.handshake_complete →
      (pbfGo opts fuel c).1.connection_announced =
        (pbfGo opts fuel c).1.handshake_complete := by
  intro fuel
  induction fuel with
  | zero => intro c h; exact h
  | succ n ih =>
    intro c h
    simp only [pbfGo]
    repeat' split
    all_goals
      first
      | exact h
      | (simp_all [TrimRxBuffer_connection_announced, TrimRxBuffer_handshake_complete]
         done)
      | (apply ih
         simp_all [TrimRxBuffer_connection_announced, TrimRxBuffer_handshake_complete]
         done)

/-- Once announced, a connection stays announced through the loop. -/
theorem pbfGo_announced_mono {N : Type} [Oracles N] (opts : ServerOptions) :
    ∀ (fuel : Nat) (c : Conn N),
      c.connection_announced = true →
      (pbfGo opts fuel c).1.connection_announced = true := by
  intro fuel
  induction fuel with
  | zero => intro c h; exact h
  | succ n ih =>
    intro c h
    simp only [pbfGo]
    repeat' split
    all_goals
      first
      | exact h
      | (simp_all [TrimRxBuffer_connection_announced]
         done)
      | (apply ih
         simp_all [TrimRxBuffer_connection_announced]
         done)

/-- The reassembly loop emits only `connection`, `message` and `error`
events (never `drain`, `backpressure` or `clientClosed`). -/
theorem pbfGo_event_kinds {N : Type} [Oracles N] (opts : ServerOptions) :
    ∀ (fuel : Nat) (c : Conn N),
      ((pbfGo opts fuel c).2.1.all
        (fun e => e.isConn || e.isMsg || e.isErr)) = true := by
  intro fuel
  induction fuel with
  | zero => intro c; rfl
  | succ n ih =>
    intro c
    simp only [pbfGo]
    repeat' split
    all_goals
      first
      | rfl
      | exact ih _
      | (simp [List.all_cons, Event.isConn, Event.isMsg, Event.isErr]
         first
         | exact ih _
         | done)

/-- From an unannounced, handshake-required state the loop either waits
(no events), rejects (a single `error` event, still unannounced), or
announces — and then `connection` is the FIRST event it emits. -/
theorem pbfGo_gate_shapes {N : Type} [Oracles N] (opts : ServerOptions) :
    ∀ (fuel : Nat) (c : Conn N),
      c.handshake_required = true → c.handshake_complete = false →
      c.connection_announced = false →
      ((pbfGo opts fuel c).2.1 = [] ∧
        (pbfGo opts fuel c).1.connection_announced = false ∧
        (pbfGo opts fuel c).1.handshake_complete = false) ∨
      (∃ m, (pbfGo opts fuel c).2.1 = [.error m] ∧
        (pbfGo opts fuel c).1.connection_announced = false ∧
        (pbfGo opts fuel c).1.handshake_complete = false) ∨
      (∃ rest, (pbfGo opts fuel c).2.1 = .connection :: rest ∧
        (pbfGo opts fuel c).1.connection_announced = true) := by
  intro fuel c hreq hcomp hann
  match fuel with
  | 0 => exact Or.inl ⟨rfl, hann, hcomp⟩
  | n + 1 =>
    simp only [pbfGo]
    repeat' split
    all_goals
      first
      | exact Or.inl ⟨rfl, hann, hcomp⟩
      | exact Or.inr (Or.inl ⟨_, rfl, hann, hcomp⟩)
      | (refine Or.inr (Or.inl ⟨_, rfl, ?_, ?_⟩) <;>
          simp [TrimRxBuffer_connection_announced, TrimRxBuffer_handshake_complete,
            hann, hcomp])
      | (refine Or.inr (Or.inr ⟨_, rfl, ?_⟩)
         apply pbfGo_announced_mono
         simp [TrimRxBuffer_connection_announced])
      | (simp_all [TrimRxBuffer_handshake_required, TrimRxBuffer_handshake_complete,
          TrimRxBuffer_connection_announced]
         done)

/-! ## Lemmas: invariant preservation over engine steps -/

theorem sumSizes_cons (b : List Nat) (q : List (List Nat)) :
    sumSizes (b :: q) = b.length + sumSizes q := by
  simp [sumSizes]

theorem sumSizes_append_one (q : List (List Nat)) (b : List Nat) :
    sumSizes (q ++ [b]) = sumSizes q + b.length := by
  simp [sumSizes]

theorem stInv_branch {N : Type} (b : Bool) (x : Conn N) :
    stInv (if b then SState.doomed x else SState.live x) ↔ connInv x := by
  cases b <;> simp [stInv]

theorem onRx_inv {N : Type} [Oracles N] (opts : ServerOptions)
    (c : Conn N) (data : List Nat) (h : connInv c) :
    connInv (onRx opts c data).1 := by
  obtain ⟨hq, ho, ha⟩ := h
  unfold onRx
  repeat' split
  all_goals
    first
    | exact ⟨hq, ho, ha⟩
    | (unfold ProcessIncomingData
       split
       · exact ⟨hq, ho, ha⟩
       · unfold ProcessBufferedFrames
         refine ⟨?_, ?_, ?_⟩
         · rw [(pbfGo_preserves opts _ _).1, (pbfGo_preserves opts _ _).2.1]
           exact hq
         · exact pbfGo_offset_le opts _ _ (by simp; omega)
         · exact pbfGo_gate_eq opts _ _ ha)

theorem onWritable_inv {N : Type} (c : Conn N) (wres : Int)
    (h : connInv c) : connInv (onWritable c wres).1 := by
  obtain ⟨hq, ho, ha⟩ := h
  simp only [onWritable]
  split
  · exact ⟨hq, ho, ha⟩
  · split
    · exact ⟨hq, ho, ha⟩
    · rename_i b rest heq
      have hpop : c.queued_bytes - b.length = sumSizes rest := by
        rw [hq, heq, sumSizes_cons]; omega
      split
      · exact ⟨hpop, ho, ha⟩
      · split
        · split
          · exact ⟨hpop, ho, ha⟩
          · exact ⟨hpop, ho, ha⟩
        · exact ⟨hpop, ho, ha⟩

theorem onBroadcast_inv {N : Type} (opts : ServerOptions) (c : Conn N)
    (framed : List Nat) (h : connInv c) :
    connInv (onBroadcast opts c framed).1 := by
  obtain ⟨hq, ho, ha⟩ := h
  simp only [onBroadcast]
  split
  all_goals exact ⟨by simp [hq, sumSizes_append_one], ho, ha⟩

theorem step_stInv {N : Type} [Oracles N] (opts : ServerOptions)
    (s : SState N) (u : UpStep) (h : stInv s) :
    stInv (step opts s u).1 := by
  cases s with
  | pre =>
    cases u <;> simp [step, stInv, connInv, adoptConn, sumSizes]
  | dead => cases u <;> trivial
  | live c =>
    cases u with
    | adopt => exact h
    | rx data =>
      have := onRx_inv opts c data h
      simp only [step]
      rw [show (stInv (if (onRx opts c data).2.2 then SState.doomed (onRx opts c data).1
        else SState.live (onRx opts c data).1)) ↔ connInv (onRx opts c data).1 from
        stInv_branch _ _]
      exact this
    | writable wres =>
      have := onWritable_inv c wres h
      simp only [step]
      rw [show (stInv (if (onWritable c wres).2.2.2 then SState.doomed (onWritable c wres).1
        else SState.live (onWritable c wres).1)) ↔ connInv (onWritable c wres).1 from
        stInv_branch _ _]
      exact this
    | close => trivial
    | broadcast data => exact onBroadcast_inv opts c _ h
    | closeConnection => exact h
  | doomed c =>
    cases u with
    | adopt => exact h
    | rx data => exact h
    | writable wres => exact h
    | close => trivial
    | broadcast data => exact onBroadcast_inv opts c _ h
    | closeConnection => exact h

theorem runFrom_stInv {N : Type} [Oracles N] (opts : ServerOptions) :
    ∀ (us : List UpStep) (s : SState N), stInv s →
      stInv (runFrom opts s us).1 := by
  intro us
  induction us with
  | nil => intro s h; exact h
  | cons u us ih =>
    intro s h
    exact ih _ (step_stInv opts s u h)

/-- Every reachable engine state satisfies the bookkeeping invariant. -/
theorem run_stInv {N : Type} [Oracles N] (opts : ServerOptions)
    (steps : List UpStep) : stInv ((run (N := N) opts steps).1) :=
  runFrom_stInv opts steps .pre trivial

/-! ## Lemmas: event ordering around close -/

theorem not_closed_of_kinds (l : List Event)
    (h : (l.all fun e => e.isConn || e.isMsg || e.isErr) = true) :
    (l.all fun e => !e.isClosed) = true := by
  induction l with
  | nil => rfl
  | cons e rest ih =>
    simp only [List.all_cons, Bool.and_eq_true] at h ⊢
    refine ⟨?_, ih h.2⟩
    cases e <;> simp_all [Event.isConn, Event.isMsg, Event.isErr, Event.isClosed]

theorem closedIsLast_append_clean (l₁ l₂ : List Event)
    (h : (l₁.all fun e => !e.isClosed) = true) :
    closedIsLast (l₁ ++ l₂) = closedIsLast l₂ := by
  induction l₁ with
  | nil => rfl
  | cons e rest ih =>
    simp only [List.all_cons, Bool.and_eq_true] at h
    cases e <;> simp_all [closedIsLast, Event.isClosed]

/-- The events of a writable upcall: nothing, or a single `drain`. -/
theorem onWritable_events {N : Type} (c : Conn N) (wres : Int) :
    (onWritable c wres).2.2.1 = [] ∨ (onWritable c wres).2.2.1 = [.drain] := by
  simp only [onWritable]
  repeat' split
  all_goals first | exact Or.inl rfl | exact Or.inr rfl

/-- The events of a broadcast arrival: nothing, or a single
`backpressure`. -/
theorem onBroadcast_events {N : Type} (opts : ServerOptions) (c : Conn N)
    (framed : List Nat) :
    (onBroadcast opts c framed).2 = [] ∨
    (∃ q t, (onBroadcast opts c framed).2 = [.backpressure q t]) := by
  simp only [onBroadcast]
  split
  · exact Or.inr ⟨_, _, rfl⟩
  · exact Or.inl rfl

/-- The events of an rx upcall are `connection`/`message`/`error` only. -/
theorem onRx_event_kinds {N : Type} [Oracles N] (opts : ServerOptions)
    (c : Conn N) (data : List Nat) :
    ((onRx opts c data).2.1.all fun e => e.isConn || e.isMsg || e.isErr) = true := by
  simp only [onRx]
  repeat' split
  all_goals
    first
    | rfl
    | (simp [Event.isMsg]; done)
    | (simp only [ProcessIncomingData]
       split
       · rfl
       · exact pbfGo_event_kinds opts _ _)

theorem runFrom_dead {N : Type} [Oracles N] (opts : ServerOptions) :
    ∀ us : List UpStep, runFrom (N := N) opts .dead us = (.dead, []) := by
  intro us
  induction us with
  | nil => rfl
  | cons u us ih => cases u <;> simpa [runFrom, step] using ih

/-- Each step either emits no `clientClosed`, or emits exactly
`[clientClosed false]` and moves to `dead`. -/
theorem step_closed_shape {N : Type} [Oracles N] (opts : ServerOptions)
    (s : SState N) (u : UpStep) :
    (((step opts s u).2.all fun e => !e.isClosed) = true) ∨
    ((step opts s u).2 = [.clientClosed false] ∧ (step opts s u).1 = .dead) := by
  cases s with
  | pre => cases u <;> first | exact Or.inl rfl | exact Or.inl (by simp [step, Event.isClosed])
  | dead => cases u <;> exact Or.inl rfl
  | live c =>
    cases u with
    | adopt => exact Or.inl rfl
    | close => exact Or.inr ⟨rfl, rfl⟩
    | closeConnection => exact Or.inl rfl
    | rx data => exact Or.inl (not_closed_of_kinds _ (onRx_event_kinds opts c data))
    | writable wres =>
      rcases onWritable_events c wres with h | h <;>
        exact Or.inl (by simp [step, h, Event.isClosed])
    | broadcast data =>
      rcases onBroadcast_events opts c (BuildFramedPayload opts data) with h | ⟨q, t, h⟩ <;>
        exact Or.inl (by simp [step, h, Event.isClosed])
  | doomed c =>
    cases u with
    | adopt => exact Or.inl rfl
    | close => exact Or.inr ⟨rfl, rfl⟩
    | closeConnection => exact Or.inl rfl
    | rx data => exact Or.inl rfl
    | writable wres => exact Or.inl rfl
    | broadcast data =>
      rcases onBroadcast_events opts c (BuildFramedPayload opts data) with h | ⟨q, t, h⟩ <;>
        exact Or.inl (by simp [step, h, Event.isClosed])

/-- `clientClosed` is the last event of every connection trace. -/
theorem runFrom_closedIsLast {N : Type} [Oracles N] (opts : ServerOptions) :
    ∀ (us : List UpStep) (s : SState N),
      closedIsLast (runFrom opts s us).2 = true := by
  intro us
  induction us with
  | nil => intro s; rfl
  | cons u us ih =>
    intro s
    show closedIsLast ((step opts s u).2 ++ (runFrom opts (step opts s u).1 us).2) = true
    rcases step_closed_shape opts s u with h | ⟨he, hs⟩
    · rw [closedIsLast_append_clean _ _ h]; exact ih _
    · rw [he, hs, runFrom_dead]; rfl

theorem closedIsLast_get (l : List Event) (hl : closedIsLast l = true) :
    ∀ (j : Nat) (b : Bool), l.get? j = some (.clientClosed b) →
      ∀ k, j < k → l.get? k = none := by
  induction l with
  | nil => intro j b hj; simp at hj
  | cons e rest ih =>
    intro j b hj k hk
    match j, k with
    | 0, k + 1 =>
      simp only [List.get?_cons_zero, Option.some.injEq] at hj
      subst hj
      simp only [closedIsLast, List.isEmpty_iff] at hl
      simp [hl]
    | j + 1, k + 1 =>
      have hrest : closedIsLast rest = true := by
        cases e <;> simp_all [closedIsLast]
      · simp only [List.get?_cons_succ] at hj ⊢
        exact ih hrest j b hj k (by omega)

/-! ## Lemmas: handshake gating (message after connection) -/

theorem onWritable_flags {N : Type} (c : Conn N) (wres : Int) :
    (onWritable c wres).1.handshake_required = c.handshake_required ∧
    (onWritable c wres).1.handshake_complete = c.handshake_complete ∧
    (onWritable c wres).1.connection_announced = c.connection_announced := by
  simp only [onWritable]
  repeat' split
  all_goals exact ⟨rfl, rfl, rfl⟩

theorem onBroadcast_flags {N : Type} (opts : ServerOptions) (c : Conn N)
    (framed : List Nat) :
    (onBroadcast opts c framed).1.handshake_required = c.handshake_required ∧
    (onBroadcast opts c framed).1.handshake_complete = c.handshake_complete ∧
    (onBroadcast opts c framed).1.connection_announced = c.connection_announced := by
  simp only [onBroadcast]
  split
  all_goals exact ⟨rfl, rfl, rfl⟩

theorem nmbc_append_clean (l₁ l₂ : List Event)
    (h : (l₁.all fun e => !e.isMsg && !e.isConn) = true) :
    noMsgBeforeConn (l₁ ++ l₂) = noMsgBeforeConn l₂ := by
  induction l₁ with
  | nil => rfl
  | cons e rest ih =>
    simp only [List.all_cons, Bool.and_eq_true] at h
    cases e <;> simp_all [noMsgBeforeConn, Event.isMsg, Event.isConn]

/-- The rx upcall from an unannounced handshake-required state: either no
`message`/`connection` is emitted and the gate stays shut, or `connection`
is the first event emitted. -/
theorem onRx_gate_shapes {N : Type} [Oracles N] (opts : ServerOptions)
    (c : Conn N) (data : List Nat) (hlp : opts.length_prefixed = true)
    (hr : c.handshake_required = true) (hc : c.handshake_complete = false)
    (ha : c.connection_announced = false) :
    (((onRx opts c data).2.1.all fun e => !e.isMsg && !e.isConn) = true ∧
      (onRx opts c data).1.handshake_required = true ∧
      (onRx opts c data).1.handshake_complete = false ∧
      (onRx opts c data).1.connection_announced = false) ∨
    (∃ rest, (onRx opts c data).2.1 = .connection :: rest) := by
  simp only [onRx]
  by_cases hde : data.isEmpty = true
  · rw [if_pos hde]
    exact Or.inl ⟨rfl, hr, hc, ha⟩
  · rw [if_neg hde]
    by_cases hcl : c.closing = true
    · rw [if_pos hcl]
      exact Or.inl ⟨rfl, hr, hc, ha⟩
    · rw [if_neg hcl, if_neg (by simp [hlp])]
      show (((ProcessIncomingData opts c data).2.1.all
          fun e => !e.isMsg && !e.isConn) = true ∧
          (ProcessIncomingData opts c data).1.handshake_required = true ∧
          (ProcessIncomingData opts c data).1.handshake_complete = false ∧
          (ProcessIncomingData opts c data).1.connection_announced = false) ∨
        (∃ rest, (ProcessIncomingData opts c data).2.1 = .connection :: rest)
      simp only [ProcessIncomingData]
      rw [if_neg hde]
      simp only [ProcessBufferedFrames]
      have hpres := (pbfGo_preserves (N := N) opts
        (({ c with rx_buffer := c.rx_buffer ++ data } : Conn N).rx_buffer.length + 1)
        { c with rx_buffer := c.rx_buffer ++ data }).2.2.2.2
      rcases pbfGo_gate_shapes (N := N) opts
          (({ c with rx_buffer := c.rx_buffer ++ data } : Conn N).rx_buffer.length + 1)
          { c with rx_buffer := c.rx_buffer ++ data } hr hc ha with
        ⟨he, ha', hc'⟩ | ⟨m, he, ha', hc'⟩ | ⟨rest, he, ha'⟩
      · exact Or.inl ⟨by rw [he]; rfl, hpres.trans hr, hc', ha'⟩
      · exact Or.inl ⟨by rw [he]; rfl, hpres.trans hr, hc', ha'⟩
      · exact Or.inr ⟨rest, he⟩

/-- From an unannounced handshake-required state (under length-prefixed
framing) every step either emits no `message`/`connection` and stays
unannounced, or emits `connection` as its first event. -/
theorem step_unann {N : Type} [Oracles N] (opts : ServerOptions)
    (hlp : opts.length_prefixed = true) (hreq : opts.protocol_version ≠ [])
    (s : SState N) (u : UpStep) (h : Unann s) :
    (((step opts s u).2.all fun e => !e.isMsg && !e.isConn) = true ∧
      Unann (step opts s u).1) ∨
    (∃ rest, (step opts s u).2 = .connection :: rest) := by
  have hpve : opts.protocol_version.isEmpty = false := by
    cases hpv : opts.protocol_version with
    | nil => exact absurd hpv hreq
    | cons a l => rfl
  cases s with
  | pre =>
    cases u <;>
      first
      | exact Or.inl ⟨rfl, trivial⟩
      | (left
         constructor
         · simp [step, hpve]
         · simp [step, Unann, adoptConn, hpve])
  | dead => cases u <;> exact Or.inl ⟨rfl, trivial⟩
  | live c =>
    obtain ⟨hr, hc, ha⟩ := h
    cases u with
    | adopt => exact Or.inl ⟨rfl, ⟨hr, hc, ha⟩⟩
    | close => exact Or.inl ⟨rfl, trivial⟩
    | closeConnection => exact Or.inl ⟨rfl, ⟨hr, hc, ha⟩⟩
    | writable wres =>
      left
      constructor
      · rcases onWritable_events c wres with h | h <;>
          simp [step, h, Event.isMsg, Event.isConn]
      · obtain ⟨f1, f2, f3⟩ := onWritable_flags c wres
        show Unann (if (onWritable c wres).2.2.2 then SState.doomed (onWritable c wres).1
          else SState.live (onWritable c wres).1)
        split <;> exact ⟨f1.trans hr, f2.trans hc, f3.trans ha⟩
    | broadcast data =>
      left
      constructor
      · rcases onBroadcast_events opts c (BuildFramedPayload opts data) with h | ⟨q, t, h⟩ <;>
          simp [step, h, Event.isMsg, Event.isConn]
      · obtain ⟨f1, f2, f3⟩ := onBroadcast_flags opts c (BuildFramedPayload opts data)
        exact ⟨f1.trans hr, f2.trans hc, f3.trans ha⟩
    | rx data =>
      rcases onRx_gate_shapes opts c data hlp hr hc ha with ⟨hclean, f1, f2, f3⟩ | ⟨rest, he⟩
      · left
        refine ⟨hclean, ?_⟩
        show Unann (if (onRx opts c data).2.2 then SState.doomed (onRx opts c data).1
          else SState.live (onRx opts c data).1)
        split <;> exact ⟨f1, f2, f3⟩
      · exact Or.inr ⟨rest, he⟩
  | doomed c =>
    obtain ⟨hr, hc, ha⟩ := h
    cases u with
    | adopt => exact Or.inl ⟨rfl, ⟨hr, hc, ha⟩⟩
    | close => exact Or.inl ⟨rfl, trivial⟩
    | closeConnection => exact Or.inl ⟨rfl, ⟨hr, hc, ha⟩⟩
    | rx data => exact Or.inl ⟨rfl, ⟨hr, hc, ha⟩⟩
    | writable wres => exact Or.inl ⟨rfl, ⟨hr, hc, ha⟩⟩
    | broadcast data =>
      left
      constructor
      · rcases onBroadcast_events opts c (BuildFramedPayload opts data) with h | ⟨q, t, h⟩ <;>
          simp [step, h, Event.isMsg, Event.isConn]
      · obtain ⟨f1, f2, f3⟩ := onBroadcast_flags opts c (BuildFramedPayload opts data)
        exact ⟨f1.trans hr, f2.trans hc, f3.trans ha⟩

/-- In every trace of a length-prefixed, handshake-required connection, no
`message` event is emitted before the first `connection` event. -/
theorem runFrom_nmbc {N : Type} [Oracles N] (opts : ServerOptions)
    (hlp : opts.length_prefixed = true) (hreq : opts.protocol_version ≠ []) :
    ∀ (us : List UpStep) (s : SState N), Unann s →
      noMsgBeforeConn (runFrom opts s us).2 = true := by
  intro us
  induction us with
  | nil => intro s _; rfl
  | cons u us ih =>
    intro s h
    show noMsgBeforeConn ((step opts s u).2 ++ (runFrom opts (step opts s u).1 us).2) = true
    rcases step_unann opts hlp hreq s u h with ⟨hclean, hu⟩ | ⟨rest, he⟩
    · rw [nmbc_append_clean _ _ hclean]; exact ih _ hu
    · rw [he]; rfl

theorem nmbc_get (l : List Event) (hl : noMsgBeforeConn l = true) :
    ∀ (i : Nat) (d : List Nat), l.get? i = some (.message d) →
      ∃ j, j < i ∧ l.get? j = some .connection := by
  induction l with
  | nil => intro i d hi; simp at hi
  | cons e rest ih =>
    intro i d hi
    match e, i with
    | .connection, 0 => simp at hi
    | .connection, i + 1 => exact ⟨0, by omega, rfl⟩
    | .message d', _ => simp [noMsgBeforeConn] at hl
    | .error m, 0 => simp at hi
    | .backpressure q t, 0 => simp at hi
    | .drain, 0 => simp at hi
    | .clientClosed b, 0 => simp at hi
    | .error m, i + 1 =>
      obtain ⟨j, hj, hjc⟩ := ih hl i d hi
      exact ⟨j + 1, by omega, hjc⟩
    | .backpressure q t, i + 1 =>
      obtain ⟨j, hj, hjc⟩ := ih hl i d hi
      exact ⟨j + 1, by omega, hjc⟩
    | .drain, i + 1 =>
      obtain ⟨j, hj, hjc⟩ := ih hl i d hi
      exact ⟨j + 1, by omega, hjc⟩
    | .clientClosed b, i + 1 =>
      obtain ⟨j, hj, hjc⟩ := ih hl i d hi
      exact ⟨j + 1, by omega, hjc⟩

/-! ## Lemmas: a doomed connection never announces -/

/-- After a callback returned `-1`, the remaining trace emits no
`connection` event and the socket never returns to `live`. -/
theorem runFrom_doomed_conn_free {N : Type} [Oracles N]
    (opts : ServerOptions) :
    ∀ (us : List UpStep) (c : Conn N),
      (((runFrom opts (.doomed c) us).2.all fun e => !e.isConn) = true) ∧
      notLive (runFrom opts (.doomed c) us).1 = true := by
  intro us
  induction us with
  | nil => intro c; exact ⟨rfl, rfl⟩
  | cons u us ih =>
    intro c
    cases u with
    | adopt => exact ih c
    | rx data => exact ih c
    | writable wres => exact ih c
    | closeConnection => exact ih _
    | close =>
      refine ⟨?_, ?_⟩
      · show (([Event.clientClosed false] ++ (runFrom opts .dead us).2).all
          fun e => !e.isConn) = true
        rw [runFrom_dead]
        rfl
      · show notLive (runFrom opts .dead us).1 = true
        rw [runFrom_dead]
        rfl
    | broadcast data =>
      refine ⟨?_, (ih _).2⟩
      show (((onBroadcast opts c (BuildFramedPayload opts data)).2 ++
          (runFrom opts (.doomed (onBroadcast opts c (BuildFramedPayload opts data)).1) us).2).all
          fun e => !e.isConn) = true
      rcases onBroadcast_events opts c (BuildFramedPayload opts data) with h | ⟨q, t, h⟩ <;>
        (rw [h]; exact (ih _).1)

/-! ## Lemmas: the big-endian length header -/

theorem encodeBe32_length (n : Nat) : (encodeBe32 n).length = 4 := rfl

theorem readBe32_encode (n : Nat) (h : n < 2 ^ 32) (t : List Nat) :
    readBe32 (encodeBe32 n ++ t) 0 = n := by
  simp only [readBe32, encodeBe32, List.cons_append, List.nil_append,
    List.getD_cons_zero, List.getD_cons_succ]
  omega

/-- Decoding an incoming header: raw byte values. -/
theorem readBe32_bytes (b0 b1 b2 b3 : Nat) (t : List Nat) :
    readBe32 (b0 :: b1 :: b2 :: b3 :: t) 0 =
      b0 * 2 ^ 24 + b1 * 2 ^ 16 + b2 * 2 ^ 8 + b3 := by
  simp only [readBe32, List.getD_cons_zero, List.getD_cons_succ]

/-- Processing a buffer whose first complete frame fails the handshake:
one `error` event, result `false` (socket close), no announcement. -/
theorem pbfGo_first_frame_error {N : Type} [Oracles N] (opts : ServerOptions)
    (c : Conn N) (f t : List Nat) (emsg : String) (fuel : Nat)
    (hbuf : c.rx_buffer = encodeBe32 f.length ++ (f ++ t))
    (hoff : c.rx_offset = 0)
    (hreqc : c.handshake_required = true)
    (hcomp : c.handshake_complete = false)
    (hf : HandleHandshakeFrame (N := N) opts f = .error emsg)
    (hlen : f.length ≤ opts.max_frame_length) (hsz : f.length < 2 ^ 32) :
    ∃ c' : Conn N, pbfGo opts (fuel + 1) c = (c', [.error emsg], false) := by
  have hflen : readBe32 c.rx_buffer c.rx_offset = f.length := by
    rw [hbuf, hoff]; exact readBe32_encode _ hsz _
  have hcond1 : c.rx_offset + 4 ≤ c.rx_buffer.length := by
    rw [hbuf, hoff]; simp [encodeBe32]
  have hcond3 : ¬ c.rx_buffer.length < c.rx_offset + 4 + f.length := by
    rw [hbuf, hoff]; simp [encodeBe32]; omega
  have hframe : (c.rx_buffer.drop (c.rx_offset + 4)).take f.length = f := by
    rw [hbuf, hoff]
    rw [show (0 : Nat) + 4 = (encodeBe32 f.length).length from rfl]
    rw [List.drop_left, List.take_left]
  simp only [pbfGo]
  rw [if_pos hcond1, hflen, if_neg (not_lt.mpr hlen), if_neg hcond3, hframe]
  rw [if_pos (show (TrimRxBuffer { c with rx_offset := c.rx_offset + 4 + f.length }).handshake_required = true ∧
      ¬ (TrimRxBuffer { c with rx_offset := c.rx_offset + 4 + f.length }).handshake_complete = true by
    constructor
    · rw [TrimRxBuffer_handshake_required]; exact hreqc
    · rw [TrimRxBuffer_handshake_complete]; simp [hcomp])]
  rw [hf]
  exact ⟨_, rfl⟩

/-- The rx upcall delivering a framed first frame that fails the
handshake: `error` event and `-1` return. -/
theorem onRx_invalid_first_frame {N : Type} [Oracles N] (opts : ServerOptions)
    (hlp : opts.length_prefixed = true) (hreq : opts.protocol_version ≠ [])
    (f t : List Nat) (emsg : String)
    (hf : HandleHandshakeFrame (N := N) opts f = .error emsg)
    (hlen : f.length ≤ opts.max_frame_length) (hsz : f.length < 2 ^ 32) :
    ∃ c' : Conn N,
      onRx opts (adoptConn opts) (encodeBe32 f.length ++ (f ++ t)) =
        (c', [.error emsg], true) := by
  have hpve : opts.protocol_version.isEmpty = false := by
    cases hpv : opts.protocol_version with
    | nil => exact absurd hpv hreq
    | cons a l => rfl
  have hne : ¬ (encodeBe32 f.length ++ (f ++ t)).isEmpty = true := by
    simp [encodeBe32]
  obtain ⟨c', hc'⟩ := pbfGo_first_frame_error (N := N) opts
    { adoptConn opts with
        rx_buffer := (adoptConn (N := N) opts).rx_buffer ++ (encodeBe32 f.length ++ (f ++ t)) }
    f t emsg
    ({ adoptConn (N := N) opts with
        rx_buffer := (adoptConn (N := N) opts).rx_buffer ++ (encodeBe32 f.length ++ (f ++ t)) }.rx_buffer.length)
    rfl rfl (by simp [adoptConn, hpve]) (by simp [adoptConn, hpve]) hf hlen hsz
  simp only [onRx]
  rw [if_neg hne, if_neg (show ¬ (adoptConn (N := N) opts).closing = true from by simp [adoptConn]),
    if_neg (by simp [hlp])]
  simp only [ProcessIncomingData]
  rw [if_neg hne]
  simp only [ProcessBufferedFrames]
  rw [hc']
  exact ⟨c', rfl⟩

/-- Claim C1 (corrected; the claim as stated fails when length-prefixed
framing is disabled — see `handshake_gate_unframed_cex`).  Amended claim:
for every connection adopted with handshake_required true under
length-prefixed framing, no message event is emitted for that connection
before its connection event; and if the first decoded frame is not a
valid handshake (unparseable JSON, missing or wrong type field, or a
failing attested verification — exactly the failures of
`HandleHandshakeFrame`), an error event is emitted, the connection is
closed, and no connection event is ever emitted for it. -/
theorem handshake_gate {N : Type} [Oracles N] (opts : ServerOptions)
    (hlp : opts.length_prefixed = true) (hreq : opts.protocol_version ≠ []) :
    (∀ (steps : List UpStep) (i : Nat) (d : List Nat),
        (run (N := N) opts steps).2.get? i = some (.message d) →
        ∃ j, j < i ∧ (run (N := N) opts steps).2.get? j = some .connection) ∧
    (∀ (f t : List Nat) (emsg : String) (post : List UpStep),
        HandleHandshakeFrame (N := N) opts f = .error emsg →
        f.length ≤ opts.max_frame_length → f.length < 2 ^ 32 →
        ((run (N := N) opts
            (.adopt :: .rx (encodeBe32 f.length ++ (f ++ t)) :: post)).2.any
            Event.isErr = true) ∧
        ((run (N := N) opts
            (.adopt :: .rx (encodeBe32 f.length ++ (f ++ t)) :: post)).2.all
            (fun e => !e.isConn) = true) ∧
        notLive (run (N := N) opts
            (.adopt :: .rx (encodeBe32 f.length ++ (f ++ t)) :: post)).1 = true) := by
  constructor
  · intro steps i d hi
    exact nmbc_get _ (runFrom_nmbc opts hlp hreq steps .pre trivial) i d hi
  · intro f t emsg post hf hlen hsz
    have hpve : opts.protocol_version.isEmpty = false := by
      cases hpv : opts.protocol_version with
      | nil => exact absurd hpv hreq
      | cons a l => rfl
    obtain ⟨c', hrx⟩ := onRx_invalid_first_frame (N := N) opts hlp hreq f t emsg hf hlen hsz
    have hstep1 : step (N := N) opts .pre .adopt = (.live (adoptConn opts), []) := by
      simp only [step]
      rw [if_neg (by simp [hpve])]
    have hstep2 : step (N := N) opts (.live (adoptConn opts))
        (.rx (encodeBe32 f.length ++ (f ++ t))) = (.doomed c', [.error emsg]) := by
      simp only [step]
      rw [hrx]
      rfl
    have hrun : run (N := N) opts
        (.adopt :: .rx (encodeBe32 f.length ++ (f ++ t)) :: post) =
        ((runFrom opts (.doomed c') post).1,
          [] ++ ([.error emsg] ++ (runFrom opts (.doomed c') post).2)) := by
      show runFrom opts .pre _ = _
      simp only [runFrom, hstep1, hstep2]
    obtain ⟨hconnfree, hnl⟩ := runFrom_doomed_conn_free opts post c'
    refine ⟨?_, ?_, ?_⟩
    · rw [hrun]; simp [Event.isErr]
    · rw [hrun]
      simpa [Event.isConn, List.all_append, List.all_eq_true] using hconnfree
    · rw [hrun]; exact hnl

/-- Claim C1 counterexample: with `framing: "none"` (length_prefixed
false) and a required handshake (`protocol_version = "v1"`), the first rx
upcall emits a `message` immediately — before (indeed without) any
`connection` event — so the claim as stated is false. -/
theorem handshake_gate_unframed_cex :
    optsRaw.protocol_version ≠ [] ∧
    (run (N := Unit) optsRaw [.adopt, .rx [1]]).2 = [.message [1]] ∧
    (∀ e ∈ (run (N := Unit) optsRaw [.adopt, .rx [1]]).2, e ≠ .connection) := by
  decide

/-- Claim C1 witness: the amended theorem applied at concrete options with
`protocol_version = "v1"` and the concrete invalid first frame "nope". -/
theorem handshake_gate_witness :
    optsHs.length_prefixed = true ∧ optsHs.protocol_version ≠ [] ∧
    ((run (N := Unit) optsHs
        (.adopt :: .rx (encodeBe32 (ascii "nope").length ++ (ascii "nope" ++ [])) :: [])).2.all
        (fun e => !e.isConn) = true) :=
  ⟨by decide, by decide,
    ((handshake_gate (N := Unit) optsHs (by decide) (by decide)).2 (ascii "nope") []
      "Failed to parse handshake: Invalid literal" [] rfl (by decide)
      (by decide)).2.1⟩

/-- When fewer than four unconsumed bytes remain, the loop waits. -/
theorem pbfGo_stop {N : Type} [Oracles N] (opts : ServerOptions)
    (fuel : Nat) (c : Conn N) (h : ¬ c.rx_offset + 4 ≤ c.rx_buffer.length) :
    pbfGo opts fuel c = (c, [], true) := by
  cases fuel with
  | zero => rfl
  | succ n => simp only [pbfGo]; rw [if_neg h]

/-- A buffer holding exactly one complete frame within the limit, on a
gate-open connection: one `message`, buffer fully consumed (the cursor
reached the end, so compaction cleared the buffer). -/
theorem pbfGo_exact_frame {N : Type} [Oracles N] (opts : ServerOptions)
    (c : Conn N) (b0 b1 b2 b3 : Nat) (payload : List Nat) (fuel : Nat)
    (hbuf : c.rx_buffer = [b0, b1, b2, b3] ++ payload)
    (hoff : c.rx_offset = 0)
    (hflen : b0 * 2 ^ 24 + b1 * 2 ^ 16 + b2 * 2 ^ 8 + b3 = payload.length)
    (hmax : payload.length ≤ opts.max_frame_length)
    (hreq : c.handshake_required = false) :
    pbfGo opts (fuel + 1) c =
      ({ c with rx_buffer := [], rx_offset := 0 }, [.message payload], true) := by
  have hlen : c.rx_buffer.length = 4 + payload.length := by
    rw [hbuf]; simp; omega
  have hrd : readBe32 c.rx_buffer c.rx_offset = payload.length := by
    rw [hbuf, hoff]
    simp only [List.cons_append, List.nil_append]
    rw [readBe32_bytes]
    exact hflen
  have hcond1 : c.rx_offset + 4 ≤ c.rx_buffer.length := by omega
  have hcond3 : ¬ c.rx_buffer.length < c.rx_offset + 4 + payload.length := by omega
  have hframe : (c.rx_buffer.drop (c.rx_offset + 4)).take payload.length = payload := by
    rw [hbuf, hoff]
    rw [show (0 : Nat) + 4 = ([b0, b1, b2, b3] : List Nat).length from rfl]
    rw [List.drop_left, List.take_length]
  have htrim : TrimRxBuffer { c with rx_offset := c.rx_offset + 4 + payload.length } =
      { c with rx_buffer := [], rx_offset := 0 } := by
    rw [TrimRxBuffer_eq]
    rw [if_pos (by simp only []; omega)]
    have hdrop : c.rx_buffer.drop (c.rx_offset + 4 + payload.length) = [] :=
      List.drop_eq_nil_of_le (by omega)
    simp only [hdrop]
  simp only [pbfGo]
  rw [if_pos hcond1, hrd, if_neg (not_lt.mpr hmax), if_neg hcond3, hframe, htrim]
  rw [if_neg (show ¬ (({ c with rx_buffer := [], rx_offset := 0 } : Conn N).handshake_required = true ∧
      ¬ ({ c with rx_buffer := [], rx_offset := 0 } : Conn N).handshake_complete = true) by
    simp [hreq])]
  rw [pbfGo_stop opts fuel _ (by simp)]

/-- Claim C3 (confirmed).  (a) A frame whose decoded 4-byte big-endian
length equals `max_frame_length` is accepted and delivered as a message;
(b) a frame whose decoded length exceeds `max_frame_length` yields exactly
one `error` event carrying "Frame length exceeded native limit", a
`false` result (no message for that frame), and (c) a failed processing
run makes the rx callback return `-1`, closing the connection. -/
theorem frame_length_limit {N : Type} [Oracles N] (opts : ServerOptions) :
    (∀ (b0 b1 b2 b3 : Nat) (payload : List Nat) (c : Conn N),
        b0 < 256 → b1 < 256 → b2 < 256 → b3 < 256 →
        b0 * 2 ^ 24 + b1 * 2 ^ 16 + b2 * 2 ^ 8 + b3 = opts.max_frame_length →
        payload.length = opts.max_frame_length →
        c.rx_buffer = [b0, b1, b2, b3] ++ payload → c.rx_offset = 0 →
        c.handshake_required = false →
        ProcessBufferedFrames opts c =
          ({ c with rx_buffer := [], rx_offset := 0 }, [.message payload], true)) ∧
    (∀ (b0 b1 b2 b3 : Nat) (t pre : List Nat) (c : Conn N),
        b0 < 256 → b1 < 256 → b2 < 256 → b3 < 256 →
        c.rx_buffer = pre ++ b0 :: b1 :: b2 :: b3 :: t → c.rx_offset = pre.length →
        opts.max_frame_length < b0 * 2 ^ 24 + b1 * 2 ^ 16 + b2 * 2 ^ 8 + b3 →
        ProcessBufferedFrames opts c =
          (c, [.error "Frame length exceeded native limit"], false)) ∧
    (∀ (c : Conn N) (data : List Nat),
        data.isEmpty = false → c.closing = false → opts.length_prefixed = true →
        (ProcessIncomingData opts c data).2.2 = false →
        (onRx opts c data).2.2 = true) := by
  refine ⟨?_, ?_, ?_⟩
  · intro b0 b1 b2 b3 payload c _ _ _ _ hflen hplen hbuf hoff hreq
    have hfuel : c.rx_buffer.length + 1 = c.rx_buffer.length + 1 := rfl
    exact pbfGo_exact_frame opts c b0 b1 b2 b3 payload c.rx_buffer.length hbuf hoff
      (by omega) (by omega) hreq
  · intro b0 b1 b2 b3 t pre c _ _ _ _ hbuf hoff hover
    have hrd : readBe32 c.rx_buffer c.rx_offset =
        b0 * 2 ^ 24 + b1 * 2 ^ 16 + b2 * 2 ^ 8 + b3 := by
      rw [hbuf, hoff]
      simp only [readBe32]
      rw [List.getD_append_right _ _ _ _ (by omega), List.getD_append_right _ _ _ _ (by omega),
        List.getD_append_right _ _ _ _ (by omega), List.getD_append_right _ _ _ _ (by omega)]
      simp [Nat.sub_self, Nat.add_sub_cancel_left]
    have hcond1 : c.rx_offset + 4 ≤ c.rx_buffer.length := by
      rw [hbuf, hoff]; simp
    simp only [ProcessBufferedFrames, pbfGo]
    rw [if_pos hcond1, hrd, if_pos hover]
  · intro c data hde hcl hlp hfail
    simp only [onRx]
    rw [if_neg (by simp [hde]), if_neg (by simp [hcl]), if_neg (by simp [hlp])]
    show (!(ProcessIncomingData opts c data).2.2) = true
    rw [hfail]
    rfl

/-- The head frame of a gate-open buffer is emitted as the first
`message`. -/
theorem pbfGo_head_message {N : Type} [Oracles N] (opts : ServerOptions)
    (c : Conn N) (fuel : Nat)
    (hcond1 : c.rx_offset + 4 ≤ c.rx_buffer.length)
    (hflen : readBe32 c.rx_buffer c.rx_offset ≤ opts.max_frame_length)
    (hcomplete : c.rx_offset + 4 + readBe32 c.rx_buffer c.rx_offset ≤ c.rx_buffer.length)
    (hreq : c.handshake_required = false) :
    ∃ (c' : Conn N) (evs : List Event) (ok : Bool),
      pbfGo opts (fuel + 1) c =
        (c', .message ((c.rx_buffer.drop (c.rx_offset + 4)).take
          (readBe32 c.rx_buffer c.rx_offset)) :: evs, ok) := by
  simp only [pbfGo]
  rw [if_pos hcond1, if_neg (not_lt.mpr hflen), if_neg (by omega)]
  rw [if_neg (show ¬ ((TrimRxBuffer { c with
      rx_offset := c.rx_offset + 4 + readBe32 c.rx_buffer c.rx_offset }).handshake_required = true ∧
      ¬ (TrimRxBuffer { c with
      rx_offset := c.rx_offset + 4 + readBe32 c.rx_buffer c.rx_offset }).handshake_complete = true) by
    simp [TrimRxBuffer_handshake_required, hreq])]
  exact ⟨_, _, _, rfl⟩

/-- Claim C4 (corrected; the claim as stated fails for `|p| ≥ 2^32` when
`max_frame_length` admits it, because `BuildFramedPayload` truncates the
length to `uint32_t` — see `decode_encode_huge_cex`).  Amended claim: for
every byte sequence `p` with `|p| ≤ max_frame_length` and `|p| < 2^32`
(including the empty sequence), decoding the stream produced by encoding
`p` yields exactly the one frame `p` and consumes the whole input. -/
theorem decode_encode_roundtrip {N : Type} [Oracles N]
    (opts : ServerOptions) (p : List Nat) (c : Conn N)
    (hlp : opts.length_prefixed = true)
    (hmax : p.length ≤ opts.max_frame_length) (hsz : p.length < 2 ^ 32)
    (hbuf : c.rx_buffer = BuildFramedPayload opts p) (hoff : c.rx_offset = 0)
    (hreq : c.handshake_required = false) :
    ProcessBufferedFrames opts c =
      ({ c with rx_buffer := [], rx_offset := 0 }, [.message p], true) := by
  have hb : c.rx_buffer = [p.length / 2 ^ 24 % 256, p.length / 2 ^ 16 % 256,
      p.length / 2 ^ 8 % 256, p.length % 256] ++ p := by
    rw [hbuf]; simp [BuildFramedPayload, hlp, encodeBe32]
  exact pbfGo_exact_frame opts c _ _ _ _ p c.rx_buffer.length hb hoff (by omega) hmax hreq

/-- A buffer whose first four bytes are zero (e.g. the truncated header
that `BuildFramedPayload` writes for a payload of length 2^32) decodes an
empty first frame, never the original payload. -/
theorem pbf_truncated_header {N : Type} [Oracles N] (opts : ServerOptions)
    (c : Conn N) (p : List Nat)
    (hbuf : c.rx_buffer = [0, 0, 0, 0] ++ p)
    (hoff : c.rx_offset = 0)
    (hreq : c.handshake_required = false)
    (hne : p ≠ []) :
    (ProcessBufferedFrames opts c).2.1 ≠ [.message p] := by
  have hrd : readBe32 c.rx_buffer c.rx_offset = 0 := by
    rw [hbuf, hoff]
    simp only [List.cons_append, List.nil_append]
    rw [readBe32_bytes]
    norm_num
  have h1 : c.rx_offset + 4 ≤ c.rx_buffer.length := by
    rw [hbuf, hoff]; simp
  have h2 : readBe32 c.rx_buffer c.rx_offset ≤ opts.max_frame_length := by
    rw [hrd]; exact Nat.zero_le _
  have h3 : c.rx_offset + 4 + readBe32 c.rx_buffer c.rx_offset ≤ c.rx_buffer.length := by
    rw [hrd, hbuf, hoff]; simp
  obtain ⟨c', evs, ok, hrun⟩ :=
    pbfGo_head_message opts c c.rx_buffer.length h1 h2 h3 hreq
  rw [hrd, List.take_zero] at hrun
  simp only [ProcessBufferedFrames]
  rw [hrun]
  intro h
  simp only [List.cons.injEq, Event.message.injEq] at h
  exact hne h.1.symm

/-- Claim C4 counterexample: with `max_frame_length = 2^32` and
`p = 0^(2^32)` (so `|p| ≤ max_frame_length`), the encoded stream's 4-byte
header holds `|p| mod 2^32 = 0`, and decoding emits an empty first frame,
not `[p]`. -/
theorem decode_encode_huge_cex :
    (List.replicate (2 ^ 32) (0 : Nat)).length ≤ optsHuge.max_frame_length ∧
    (ProcessBufferedFrames (N := Unit) optsHuge
        { adoptConn (N := Unit) optsHuge with
            rx_buffer := BuildFramedPayload optsHuge (List.replicate (2 ^ 32) 0) }).2.1 ≠
      [.message (List.replicate (2 ^ 32) (0 : Nat))] := by
  have hplen : (List.replicate (2 ^ 32) (0 : Nat)).length = 2 ^ 32 :=
    List.length_replicate _ _
  constructor
  · rw [hplen]
    exact Nat.le_refl _
  · apply pbf_truncated_header (N := Unit) optsHuge _ _ ?hbuf rfl rfl ?hne
    case hbuf =>
      show BuildFramedPayload optsHuge (List.replicate (2 ^ 32) 0) = _
      simp only [BuildFramedPayload]
      rw [if_pos (show optsHuge.length_prefixed = true from rfl), hplen]
      norm_num [encodeBe32]
    case hne =>
      intro h
      have hlen0 := congrArg List.length h
      rw [hplen] at hlen0
      simp only [List.length_nil] at hlen0
      exact absurd hlen0 (by norm_num)

/-- Claim C3 witness: boundary acceptance and oversize rejection at
`max_frame_length = 3`. -/
theorem frame_length_limit_witness :
    (ProcessBufferedFrames (N := Unit) optsSmall
        { adoptConn (N := Unit) optsSmall with
            rx_buffer := [0, 0, 0, 3] ++ [7, 8, 9] }).2.1 = [.message [7, 8, 9]] ∧
    (ProcessBufferedFrames (N := Unit) optsSmall
        { adoptConn (N := Unit) optsSmall with
            rx_buffer := [0, 0, 0, 4] ++ [1, 2, 3, 4] }).2.1 =
      [.error "Frame length exceeded native limit"] :=
  ⟨by rw [(frame_length_limit (N := Unit) optsSmall).1 0 0 0 3 [7, 8, 9] _
      (by decide) (by decide) (by decide) (by decide) (by decide) (by decide) rfl rfl rfl],
   by rw [(frame_length_limit (N := Unit) optsSmall).2.1 0 0 0 4 [1, 2, 3, 4] [] _
      (by decide) (by decide) (by decide) (by decide) rfl rfl (by decide)]⟩

/-- Claim C4 witness: the amended round-trip at the concrete payload
"hi!" under default options. -/
theorem decode_encode_roundtrip_witness :
    optsDefault.length_prefixed = true ∧
    ProcessBufferedFrames (N := Unit) optsDefault
      { adoptConn (N := Unit) optsDefault with
          rx_buffer := BuildFramedPayload optsDefault (ascii "hi!") } =
      ({ ({ adoptConn (N := Unit) optsDefault with
          rx_buffer := BuildFramedPayload optsDefault (ascii "hi!") } : Conn Unit) with
          rx_buffer := [], rx_offset := 0 }, [.message (ascii "hi!")], true) :=
  ⟨rfl, decode_encode_roundtrip (N := Unit) optsDefault (ascii "hi!") _ rfl
    (by decide) (by decide) rfl rfl rfl⟩

/-- Claim C2 (confirmed): for every connection, at every observable point
(after any broadcast/enqueue or writable-upcall step completes — i.e. in
every reachable engine state), `queued_bytes` equals the sum of the sizes
of the blobs in its `send_queue`. -/
theorem queued_bytes_invariant {N : Type} [Oracles N]
    (opts : ServerOptions) (steps : List UpStep) :
    queueAccurate ((run (N := N) opts steps).1) := by
  have h := run_stInv (N := N) opts steps
  cases hs : (run (N := N) opts steps).1 with
  | pre => trivial
  | dead => trivial
  | live c => rw [hs] at h; exact h.1
  | doomed c => rw [hs] at h; exact h.1

/-- Claim C9 (confirmed): the receive cursor never passes the buffer end
in any reachable state, it is preserved through the whole reassembly
pipeline, compaction happens exactly when the cursor exceeds half the
buffer length (keeping the unconsumed suffix), and immediately after
compaction the cursor is 0. -/
theorem rx_cursor_invariant {N : Type} [Oracles N] (opts : ServerOptions) :
    (∀ steps : List UpStep, cursorOk ((run (N := N) opts steps).1)) ∧
    (∀ c : Conn N, c.rx_offset ≤ c.rx_buffer.length →
        (ProcessBufferedFrames opts c).1.rx_offset ≤
          (ProcessBufferedFrames opts c).1.rx_buffer.length) ∧
    (∀ c : Conn N, c.rx_buffer.length / 2 < c.rx_offset →
        (TrimRxBuffer c).rx_offset = 0 ∧
        (TrimRxBuffer c).rx_buffer = c.rx_buffer.drop c.rx_offset) ∧
    (∀ c : Conn N, ¬ c.rx_buffer.length / 2 < c.rx_offset →
        TrimRxBuffer c = c) := by
  refine ⟨?_, ?_, ?_, ?_⟩
  · intro steps
    have h := run_stInv (N := N) opts steps
    cases hs : (run (N := N) opts steps).1 with
    | pre => trivial
    | dead => trivial
    | live c => rw [hs] at h; exact h.2.1
    | doomed c => rw [hs] at h; exact h.2.1
  · intro c h
    exact pbfGo_offset_le opts _ c h
  · intro c h
    rw [TrimRxBuffer_eq, if_pos h]
    exact ⟨rfl, rfl⟩
  · intro c h
    rw [TrimRxBuffer_eq, if_neg h]

/-- Claim C9 witness: compaction at a concrete connection whose cursor
(3) exceeds half its 4-byte buffer. -/
theorem rx_cursor_invariant_witness :
    (([9, 9, 9, 9] : List Nat).length / 2 < 3) ∧
    (TrimRxBuffer
      ({ send_queue := [], queued_bytes := 0, backpressured := false,
         closing := false, rx_buffer := [9, 9, 9, 9], rx_offset := 3,
         handshake_required := false, handshake_complete := true,
         connection_announced := true, handshake_metadata := {} } : Conn Unit)).rx_offset = 0 :=
  ⟨by decide,
    ((rx_cursor_invariant (N := Unit) optsDefault).2.2.1
      { send_queue := [], queued_bytes := 0, backpressured := false,
        closing := false, rx_buffer := [9, 9, 9, 9], rx_offset := 3,
        handshake_required := false, handshake_complete := true,
        connection_announced := true, handshake_metadata := {} } (by decide)).1⟩

/-- Claim C5 (corrected; a connection closed while backpressured emits
`clientClosed` with no `drain` at all — see
`backpressured_close_no_drain_cex`).  Amended claim: for every connection
on which a backpressure event was emitted, the subsequent drain event, if
one is emitted (when its send_queue empties), is emitted before any
clientClosed event for that connection. -/
theorem drain_precedes_clientClosed {N : Type} [Oracles N]
    (opts : ServerOptions) (steps : List UpStep) (i j : Nat) (b : Bool)
    (hd : (run (N := N) opts steps).2.get? i = some .drain)
    (hc : (run (N := N) opts steps).2.get? j = some (.clientClosed b)) :
    i < j := by
  rcases Nat.lt_trichotomy i j with h | h | h
  · exact h
  · subst h
    rw [hd] at hc
    exact absurd hc (by simp)
  · have hlast : closedIsLast (run (N := N) opts steps).2 = true :=
      runFrom_closedIsLast opts steps .pre
    have hnone := closedIsLast_get _ hlast j b hc i h
    rw [hnone] at hd
    exact absurd hd (by simp)

/-- Claim C5 counterexample: broadcast past the threshold (backpressure
fires), then the peer closes the socket: `clientClosed` is emitted and no
`drain` is ever emitted, refuting the claim as stated. -/
theorem backpressured_close_no_drain_cex :
    (run (N := Unit) optsBp [.adopt, .broadcast [5], .close]).2 =
      [.connection, .backpressure 5 1, .clientClosed false] ∧
    (∀ e ∈ (run (N := Unit) optsBp [.adopt, .broadcast [5], .close]).2,
      e ≠ .drain) := by
  decide

/-- Claim C5 witness: a backpressured connection that drains before the
peer closes; the drain (index 2) precedes the clientClosed (index 3). -/
theorem drain_precedes_clientClosed_witness :
    ((run (N := Unit) optsBp
        [.adopt, .broadcast [5], .writable 5, .close]).2.get? 2 = some .drain) ∧
    (2 : Nat) < 3 :=
  ⟨by decide,
    drain_precedes_clientClosed (N := Unit) optsBp
      [.adopt, .broadcast [5], .writable 5, .close] 2 3 false
      (by decide) (by decide)⟩

/-- Claim C8 (corrected; a PARTIAL write does not close the connection —
the code only checks a negative `lws_write` return, see
`partial_write_not_closed_cex`).  Amended claim: on every writable upcall
for a non-closing connection with a non-empty send_queue, exactly the
head blob is popped (with its size debited) and passed to the provider
write, and the connection is closed iff the write returned negative. -/
theorem writable_pops_head {N : Type} (c : Conn N) (wres : Int)
    (b : List Nat) (rest : List (List Nat))
    (hcl : c.closing = false) (hq : c.send_queue = b :: rest) :
    (onWritable c wres).2.1 = some b ∧
    (onWritable c wres).1.send_queue = rest ∧
    (onWritable c wres).1.queued_bytes = c.queued_bytes - b.length ∧
    ((onWritable c wres).2.2.2 = true ↔ wres < 0) := by
  simp only [onWritable]
  rw [if_neg (by simp [hcl]), hq]
  repeat' split
  all_goals
    first
    | (simp_all; done)
    | (refine ⟨rfl, rfl, rfl, ?_⟩ <;> simp_all)

/-- Claim C8 counterexample: provider write returns 1 for a 3-byte blob
(a partial write); the connection is not closed. -/
theorem partial_write_not_closed_cex :
    (0 : Int) ≤ 1 ∧ (1 : Int) < 3 ∧
    (onWritable (N := Unit)
      { send_queue := [[1, 2, 3]], queued_bytes := 3, backpressured := false,
        closing := false, rx_buffer := [], rx_offset := 0,
        handshake_required := false, handshake_complete := true,
        connection_announced := true, handshake_metadata := {} } 1).2.2.2 = false := by
  decide

/-- Claim C8 witness: the amended theorem at a concrete failed write. -/
theorem writable_pops_head_witness :
    ({ send_queue := [[1, 2, 3]], queued_bytes := 3, backpressured := false,
       closing := false, rx_buffer := [], rx_offset := 0,
       handshake_required := false, handshake_complete := true,
       connection_announced := true,
       handshake_metadata := {} } : Conn Unit).closing = false ∧
    (onWritable (N := Unit)
      { send_queue := [[1, 2, 3]], queued_bytes := 3, backpressured := false,
        closing := false, rx_buffer := [], rx_offset := 0,
        handshake_required := false, handshake_complete := true,
        connection_announced := true, handshake_metadata := {} } (-1)).2.1 =
      some [1, 2, 3] :=
  ⟨by decide,
    (writable_pops_head (N := Unit)
      { send_queue := [[1, 2, 3]], queued_bytes := 3, backpressured := false,
        closing := false, rx_buffer := [], rx_offset := 0,
        handshake_required := false, handshake_complete := true,
        connection_announced := true, handshake_metadata := {} } (-1) [1, 2, 3] []
      (by decide) rfl).1⟩

/-- Claim C10 (confirmed): the client's `recv` with an empty queue
returns a zero-length buffer without touching the queue; otherwise it
removes the oldest chunk whole, returns its first `limit` bytes when a
positive limit is given, and the remainder of that chunk can never be
returned by a later recv — the future behavior depends only on the tail
of the queue. -/
theorem client_recv_behavior :
    (∀ limit : Nat, clientRecv [] limit = ([], [])) ∧
    (∀ (d : List Nat) (rest : List (List Nat)) (limit : Nat),
        (clientRecv (d :: rest) limit).2 = rest) ∧
    (∀ (d : List Nat) (rest : List (List Nat)) (limit : Nat), 0 < limit →
        (clientRecv (d :: rest) limit).1 = d.take limit) ∧
    (∀ (d : List Nat) (rest : List (List Nat)) (l : Nat) (ls : List Nat),
        runRecvs (d :: rest) (l :: ls) =
          (clientRecv (d :: rest) l).1 :: runRecvs rest ls) := by
  refine ⟨fun _ => rfl, fun _ _ _ => rfl, ?_, fun _ _ _ _ => rfl⟩
  intro d rest limit hpos
  simp only [clientRecv]
  split
  · rfl
  · rename_i hcond
    have : d.length ≤ limit := by
      rcases Nat.lt_or_ge limit d.length with h | h
      · exact absurd ⟨hpos, h⟩ hcond
      · exact h
    rw [List.take_all_of_le this]

/-- Claim C10 witness: a 4-byte chunk received with limit 2. -/
theorem client_recv_behavior_witness :
    (0 : Nat) < 2 ∧
    (clientRecv [[1, 2, 3, 4], [5]] 2).1 = [1, 2, 3, 4].take 2 :=
  ⟨by decide, client_recv_behavior.2.2.1 [1, 2, 3, 4] [[5]] 2 (by decide)⟩

/-- Claim C7 (confirmed, with the OpenSSL/double primitives as abstract
oracles; statement holds for every instantiation).  When the handshake
root carries the members publicKey/signature/negHash/nIndex: (i) the
attested verification succeeds exactly when publicKey and signature
base64-decode, the negHash recomputed from the decoded public key (via
the recomputed nIndex) equals the root's negHash string, and the ed25519
signature verifies over the canonical serialization of the root with the
top-level signature member omitted; (ii) when it fails, the handshake is
rejected with the corresponding error event message. -/
theorem attested_handshake_verification {N : Type} [Oracles N]
    (root : JsonValue N)
    (hlooks : LooksNegantropicHandshake root = true) :
    (∀ meta : HandshakeMetadata N,
      ((∃ m', VerifyNegantropicHandshake root meta = .ok m') ↔
        (∃ pkB sigB nh pk sig,
          GetStringMember root (ascii "publicKey") = some pkB ∧
          GetStringMember root (ascii "signature") = some sigB ∧
          GetStringMember root (ascii "negHash") = some nh ∧
          Base64Decode (N := N) pkB = some pk ∧
          Base64Decode (N := N) sigB = some sig ∧
          DeriveNegentropicHash pk (Oracles.computeNIndex (N := N) pk) = nh ∧
          Oracles.ed25519Verify (N := N) pk sig
            (SerializeJson true true root) = true))) ∧
    (∀ (opts : ServerOptions) (f : List Nat) (e : String),
      ParseJson (N := N) f = .ok root →
      GetStringMember root (ascii "type") = some (ascii "handshake") →
      (decide (opts.protocol_version ≠ []) &&
        (match GetStringMember root (ascii "version") with
         | some v => decide (v ≠ []) && decide (v ≠ opts.protocol_version)
         | none => false)) = false →
      VerifyNegantropicHandshake root (BuildHandshakeMetadata root) = .error e →
      HandleHandshakeFrame (N := N) opts f =
        .error ("Invalid handshake signature: " ++ e)) := by
  constructor
  · intro meta
    constructor
    · rintro ⟨m', hm⟩
      simp only [VerifyNegantropicHandshake] at hm
      repeat' split at hm
      all_goals
        first
        | (refine ⟨_, _, _, _, _, ?_, ?_, ?_, ?_, ?_, ?_, ?_⟩ <;> assumption)
        | (simp_all; done)
        | ((split at hm <;> simp_all); done)
    · rintro ⟨pkB, sigB, nh, pk, sig, h1, h2, h3, h4, h5, h6, h7⟩
      unfold VerifyNegantropicHandshake
      rw [h1, h2, h3]
      simp only [h4, h5, h6, h7, if_pos rfl]
      exact ⟨_, rfl⟩
  · intro opts f e hparse htype hver hfail
    unfold HandleHandshakeFrame
    rw [hparse]
    dsimp only
    rw [htype]
    dsimp only
    rw [if_neg (by simp), hver]
    rw [if_neg (by simp), if_pos hlooks, hfail]

/-- Claim C7 witness: the characterization applied at a concrete attested
handshake root. -/
theorem attested_handshake_verification_witness :
    LooksNegantropicHandshake rootAttested = true ∧
    ((∃ m', VerifyNegantropicHandshake rootAttested {} = .ok m') ↔
      (∃ pkB sigB nh pk sig,
        GetStringMember rootAttested (ascii "publicKey") = some pkB ∧
        GetStringMember rootAttested (ascii "signature") = some sigB ∧
        GetStringMember rootAttested (ascii "negHash") = some nh ∧
        Base64Decode (N := Unit) pkB = some pk ∧
        Base64Decode (N := Unit) sigB = some sig ∧
        DeriveNegentropicHash pk (Oracles.computeNIndex (N := Unit) pk) = nh ∧
        Oracles.ed25519Verify (N := Unit) pk sig
          (SerializeJson true true rootAttested) = true)) :=
  ⟨by decide, (attested_handshake_verification rootAttested (by decide)).1 {}⟩
